import Mathlib

/-!
Verification development for the phase-aware genotype-pruning engine of RBCeq2
(`src/rbceq2/filters/phased.py` and `src/rbceq2/filters/shared_filter_functionality.py`).

The Python data-model classes (`Allele`, `Pair`, `BloodGroup`, `Zygosity`,
`apply_to_dict_values`) live in `core_logic/alleles.py` / `core_logic/utils.py`,
which are not part of the sources at hand; those parts are modelled from the
specification's data-model section and marked `Modelled from the spec:` below.
Everything else is translated directly from the Python filter code.

Modelling conventions:
* Python dicts are association lists `List (String × α)`; `dict.get` is
  `dGet` (first match, `Option`-valued).  Python's `d[k]` raises `KeyError`
  on a missing key; the pipeline assumes well-formed input (every defining
  variant is keyed), and the model totalises `d[k]` for string-valued dicts
  as `dIdx` with the out-of-vocabulary value `""` (never a legal phase
  string).  Where a raw indexing result feeds an `assert`ed branch (filter
  `impossible_alleles_phased`) the missing-key case is an explicit error.
* Python `assert` statements abort the gene; filters containing asserts
  return `Except String BloodGroup`, assert failures being `.error`.
* Python sets of strings/alleles are deduplicated lists compared with
  set-equality helpers; iteration order of a Python set never influences
  the computed removal sets (all uses are membership / ∃ / ∀ based).
-/

namespace RBC

/-- Modelled from the spec: per-variant zygosity, `{HOM, HET}`
(`Zygosity` lives in the absent `core_logic/utils.py`). -/
inductive Zygosity : Type where
  | HOM : Zygosity
  | HET : Zygosity
deriving DecidableEq, Repr

/-- Python `dict.get(k)`: first binding of `k` in the association list. -/
def dGet {α : Type} (d : List (String × α)) (k : String) : Option α :=
  (d.find? (fun kv => kv.1 == k)).map (fun kv => kv.2)

/-- Python `d[k]` for string-valued dicts, totalised with `""` for a missing
key (Python raises `KeyError`; inputs are assumed well-formed). -/
def dIdx (d : List (String × String)) (k : String) : String :=
  (dGet d k).getD ""

/-- Python `str.endswith(".")`. -/
def endsWithDot (v : String) : Bool :=
  v.data.getLast? == some '.'

/-- Python `c in s` for a single character. -/
def hasChar (s : String) (c : Char) : Bool :=
  s.data.contains c

/-- Whether the first character list is a prefix of the second. -/
def charsPrefix : List Char → List Char → Bool
  | [], _ => true
  | _ :: _, [] => false
  | c :: cs, d :: ds => c == d && charsPrefix cs ds

/-- Whether the first character list occurs inside the second. -/
def charsInfix (needle : List Char) : List Char → Bool
  | [] => needle.isEmpty
  | c :: cs => charsPrefix needle (c :: cs) || charsInfix needle cs

/-- Python `needle in hay` substring test (empty needle is contained). -/
def substrOf (needle hay : String) : Bool :=
  charsInfix needle.data hay.data

/-- Python `str.isdigit()`: nonempty and all digits. -/
def isDigitStr (s : String) : Bool :=
  !s.data.isEmpty && s.data.all Char.isDigit

/-- Set-equality of two lists viewed as finite sets (Python `set == set`). -/
def lSetEq {α : Type} [BEq α] (xs ys : List α) : Bool :=
  xs.all (fun x => ys.contains x) && ys.all (fun y => xs.contains y)

/-- Subset test on variant identifier lists viewed as sets. -/
def vsSubset (xs ys : List String) : Bool :=
  xs.all (fun x => ys.contains x)

/-- Equality of variant identifier lists viewed as sets (frozenset equality). -/
def vsEq (xs ys : List String) : Bool :=
  vsSubset xs ys && vsSubset ys xs

/-- Modelled from the spec: an Allele owns a genotype label, a frozen set of
defining variant identifiers, a numeric evidentiary weight (`weight_geno`),
a reference flag and a sub-type grouping label (class `Allele` of the absent
`core_logic/alleles.py`). -/
structure Allele : Type where
  genotype : String
  defining_variants : List String
  weight_geno : Int
  reference : Bool
  sub_type : String
deriving DecidableEq, Repr

/-- Modelled from the spec: Python `Allele.__eq__`.  The spec states two
alleles are equal iff their defining-variant sets and genotype label match;
the attrs-style value class compares all fields, and on well-formed data the
label and variant set determine the rest, so the model compares every field
(with the variant lists compared as sets). -/
def aEq (a b : Allele) : Bool :=
  vsEq a.defining_variants b.defining_variants && a.genotype == b.genotype &&
    a.weight_geno == b.weight_geno && a.reference == b.reference &&
    a.sub_type == b.sub_type

/-- Modelled from the spec: Python `allele in allele2` containment — the
defining variants of the first form a strict subset of the second's ("any
allele contained in a *larger* allele"; proper frozenset inclusion). -/
def aIn (a b : Allele) : Bool :=
  vsSubset a.defining_variants b.defining_variants &&
    !vsSubset b.defining_variants a.defining_variants

/-- Modelled from the spec: an unordered pair of two alleles, one diploid
genotype hypothesis (class `Pair` of the absent `core_logic/alleles.py`). -/
structure Pair : Type where
  allele1 : Allele
  allele2 : Allele
deriving DecidableEq, Repr

/-- Python iteration over a pair (`for allele in pair`, `pair.alleles`). -/
def Pair.toList (p : Pair) : List Allele :=
  [p.allele1, p.allele2]

/-- Modelled from the spec: Python `Pair.__eq__` — pairs are unordered. -/
def pairEq (p q : Pair) : Bool :=
  (aEq p.allele1 q.allele1 && aEq p.allele2 q.allele2) ||
    (aEq p.allele1 q.allele2 && aEq p.allele2 q.allele1)

/-- Python `pair.contains_reference`: either allele carries the flag. -/
def Pair.containsReference (p : Pair) : Bool :=
  p.allele1.reference || p.allele2.reference

/-- Python `pair.all_reference`: both alleles carry the flag. -/
def Pair.allReference (p : Pair) : Bool :=
  p.allele1.reference && p.allele2.reference

/-- Modelled from the spec: the per-gene candidate aggregate (`BloodGroup` of
the absent `core_logic/alleles.py`): RAW alleles, NORMAL pairs, optional CO
pairs, FILT alleles, the sample's variant/phase/phase-set maps, and the
removal ledger (`filtered_out`), split into its allele-valued and
pair-valued entries. -/
structure BloodGroup : Type where
  type : String
  normal : List Pair
  co : Option (List Pair)
  filt : List Allele
  raw : List Allele
  variant_pool : List (String × Zygosity)
  variant_pool_phase : List (String × String)
  variant_pool_phase_set : List (String × String)
  ledgerA : List (String × List Allele)
  ledgerP : List (String × List Pair)
deriving DecidableEq, Repr

/-- Membership of an allele in a list up to Python allele equality. -/
def memA (a : Allele) (l : List Allele) : Bool :=
  l.any (fun b => aEq a b)

/-- Membership of a pair in a list up to Python pair equality. -/
def memP (p : Pair) (l : List Pair) : Bool :=
  l.any (fun q => pairEq p q)

/-- Modelled from the spec: `BloodGroup.remove_pairs` on the NORMAL state —
drop every listed pair from the NORMAL list and record the removals in the
ledger under the filter's name. -/
def removePairsN (bg : BloodGroup) (tr : List Pair) (name : String) : BloodGroup :=
  { bg with normal := bg.normal.filter (fun p => !memP p tr),
            ledgerP := bg.ledgerP ++ [(name, tr)] }

/-- Modelled from the spec: `BloodGroup.remove_pairs` on the CO state. -/
def removePairsCO (bg : BloodGroup) (tr : List Pair) (name : String) : BloodGroup :=
  { bg with co := bg.co.map (fun l => l.filter (fun p => !memP p tr)),
            ledgerP := bg.ledgerP ++ [(name, tr)] }

/-- Modelled from the spec: `BloodGroup.remove_alleles` on the FILT state. -/
def removeAllelesF (bg : BloodGroup) (tr : List Allele) (name : String) : BloodGroup :=
  { bg with filt := bg.filt.filter (fun a => !memA a tr),
            ledgerA := bg.ledgerA ++ [(name, tr)] }

/-- Ledger lookup used by `ref_not_phased` (`bg.filtered_out[name]`, a
defaultdict: missing key yields the empty list; repeated entries under one
name accumulate). -/
def ledgerLookupA (bg : BloodGroup) (name : String) : List Allele :=
  ((bg.ledgerA.filter (fun e => e.1 == name)).map (fun e => e.2)).flatten

/-- `shared_filter_functionality.flatten_alleles`: the set of alleles
occurring in a list of pairs (deduplicated up to allele equality). -/
def flattenAlleles (pairs : List Pair) : List Allele :=
  pairs.foldl
    (fun acc p =>
      let acc1 := if acc.any (fun b => aEq b p.allele1) then acc else acc ++ [p.allele1]
      if acc1.any (fun b => aEq b p.allele2) then acc1 else acc1 ++ [p.allele2])
    []

/-- `shared_filter_functionality.all_hom`: every defining variant of the
allele is homozygous (`variant_pool.get(v) == Zygosity.HOM`). -/
def allHom (pool : List (String × Zygosity)) (a : Allele) : Bool :=
  a.defining_variants.all (fun v => dGet pool v == some Zygosity.HOM)

/-- `shared_filter_functionality.proceed` for the CO state: only the KN gene
with an actual CO list is processed. -/
def proceedCO (bg : BloodGroup) : Bool :=
  bg.type == "KN" && bg.co.isSome

/-- The flagging condition of `shared_filter_functionality.identify_unphased`:
the allele owns two distinct HET defining variants in one phase-set whose
phase strings differ (a self-contradictory, cis-conflicting allele). -/
def unphasedCond (bg : BloodGroup) (a : Allele) : Bool :=
  a.defining_variants.any (fun v =>
    dGet bg.variant_pool v == some Zygosity.HET &&
    a.defining_variants.any (fun v2 =>
      !(v == v2) &&
      dGet bg.variant_pool v2 == some Zygosity.HET &&
      dIdx bg.variant_pool_phase_set v == dIdx bg.variant_pool_phase_set v2 &&
      !(dIdx bg.variant_pool_phase v == dIdx bg.variant_pool_phase v2)))

/-- Filter 1, `phased.remove_unphased`: drop the self-contradictory alleles
identified by `identify_unphased` from the FILT state. -/
def remove_unphased (bg : BloodGroup) (phased : Bool) : BloodGroup :=
  if phased then
    let tr := bg.filt.filter (unphasedCond bg)
    if tr.isEmpty then bg else removeAllelesF bg tr "remove_unphased"
  else bg

/-- Removal condition of filter 2: some HET defining variant of `allele1`
and some HET defining variant of `allele2` carry the same ordered phase
string (`phase == phase2 and "|" in phase`).  Phase-sets are not consulted. -/
def cond2 (pool : List (String × Zygosity)) (phd : List (String × String))
    (p : Pair) : Bool :=
  p.allele1.defining_variants.any (fun v =>
    dGet pool v == some Zygosity.HET &&
    p.allele2.defining_variants.any (fun v2 =>
      dGet pool v2 == some Zygosity.HET &&
      dIdx phd v == dIdx phd v2 &&
      hasChar (dIdx phd v) '|'))

/-- One NORMAL-state removal step shared by the two-state filters. -/
def stepN (bg : BloodGroup) (cond : BloodGroup → Pair → Bool) (name : String) :
    BloodGroup :=
  let tr := bg.normal.filter (cond bg)
  if tr.isEmpty then bg else removePairsN bg tr name

/-- One CO-state removal step shared by the two-state filters (guarded by
`proceed`). -/
def stepCO (bg : BloodGroup) (cond : BloodGroup → List Pair → Pair → Bool)
    (name : String) : BloodGroup :=
  if proceedCO bg then
    let l := bg.co.getD []
    let tr := l.filter (cond bg l)
    if tr.isEmpty then bg else removePairsCO bg tr name
  else bg

/-- Filter 2, `phased.filter_if_all_HET_vars_on_same_side_and_phased`:
remove, from the NORMAL and (for KN) CO states, every pair two of whose HET
defining variants share an ordered phase string. -/
def filter_if_all_HET_vars_on_same_side_and_phased (bg : BloodGroup)
    (phased : Bool) : BloodGroup :=
  if phased then
    let bg1 := stepN bg (fun b => cond2 b.variant_pool b.variant_pool_phase)
      "filter_if_all_HET_vars_on_same_side_and_phased"
    stepCO bg1 (fun b _ => cond2 b.variant_pool b.variant_pool_phase)
      "filter_if_all_HET_vars_on_same_side_and_phased"
  else bg

/-- `phased.find_phase`: the set of `phase_dict.get` values over the
allele's defining variants, excluding the unordered strings `0/1`, `1/0`
(a missing key contributes `none`). -/
def findPhase (phd : List (String × String)) (a : Allele) : List (Option String) :=
  ((a.defining_variants.map (dGet phd)).filter
    (fun o => !(o == some "0/1") && !(o == some "1/0"))).dedup

/-- `phased.allele_phased`: the phase-set values (default `"None"`) of the
allele's defining variants either are exactly `{"."}` (all HOM) or contain
exactly one distinct caller-assigned (digit-string) phase-set id. -/
def allelePhasedB (psd : List (String × String)) (a : Allele) : Bool :=
  let psVals := (a.defining_variants.map (fun v => (dGet psd v).getD "None")).dedup
  if lSetEq psVals ["."] then true
  else (psVals.filter isDigitStr).length == 1

/-- The `pairs_with_HET` membership test of filter 3: neither allele all-HOM,
both alleles phased, neither `find_phase` result `{None}` or `{"unknown"}`,
and both results singletons. -/
def pairWithHETCond (bg : BloodGroup) (p : Pair) : Bool :=
  !allHom bg.variant_pool p.allele1 && !allHom bg.variant_pool p.allele2 &&
  allelePhasedB bg.variant_pool_phase_set p.allele1 &&
  allelePhasedB bg.variant_pool_phase_set p.allele2 &&
  (let f1 := findPhase bg.variant_pool_phase p.allele1
   let f2 := findPhase bg.variant_pool_phase p.allele2
   !lSetEq f1 [none] && !lSetEq f2 [none] &&
   !lSetEq f1 [some "unknown"] && !lSetEq f2 [some "unknown"] &&
   f1.length == 1 && f2.length == 1)

/-- Removal condition of filter 3: the pair owns an all-HOM allele contained
(strictly) in both alleles of some `pairs_with_HET` member of the state. -/
def cond3 (bg : BloodGroup) (pairs : List Pair) (p : Pair) : Bool :=
  (pairs.filter (pairWithHETCond bg)).any (fun pw =>
    p.toList.any (fun a =>
      allHom bg.variant_pool a && aIn a pw.allele1 && aIn a pw.allele2))

/-- Filter 3, `phased.filter_on_in_relationship_if_HET_vars_on_dif_side_and_phased`. -/
def filter_on_in_relationship_if_HET_vars_on_dif_side_and_phased
    (bg : BloodGroup) (phased : Bool) : BloodGroup :=
  if phased then
    let bg1 := stepN bg (fun b => cond3 b b.normal)
      "filter_on_in_relationship_if_HET_vars_on_dif_side_and_phased"
    stepCO bg1 cond3
      "filter_on_in_relationship_if_HET_vars_on_dif_side_and_phased"
  else bg

/-- The `fully_phased_pairs` membership test of filter 4 (same as filter 3's
without the all-HOM exclusion). -/
def fullyPhasedCond (bg : BloodGroup) (p : Pair) : Bool :=
  allelePhasedB bg.variant_pool_phase_set p.allele1 &&
  allelePhasedB bg.variant_pool_phase_set p.allele2 &&
  (let f1 := findPhase bg.variant_pool_phase p.allele1
   let f2 := findPhase bg.variant_pool_phase p.allele2
   !lSetEq f1 [none] && !lSetEq f2 [none] &&
   !lSetEq f1 [some "unknown"] && !lSetEq f2 [some "unknown"])

/-- Removal condition of filter 4: a fully-phased pair with an all-HOM
allele such that some other allele of the flattened fully-phased set has a
different phase than the HOM allele's partner while (strictly) containing
the HOM allele. -/
def cond4 (bg : BloodGroup) (pairs : List Pair) (p : Pair) : Bool :=
  fullyPhasedCond bg p &&
  (allHom bg.variant_pool p.allele1 || allHom bg.variant_pool p.allele2) &&
  (let hom := if allHom bg.variant_pool p.allele1 then p.allele1 else p.allele2
   let partner := if allHom bg.variant_pool p.allele1 then p.allele2 else p.allele1
   let php := findPhase bg.variant_pool_phase partner
   (flattenAlleles (pairs.filter (fullyPhasedCond bg))).any (fun fl =>
     !(aEq fl p.allele1 || aEq fl p.allele2) &&
     !lSetEq (findPhase bg.variant_pool_phase fl) php &&
     aIn hom fl))

/-- Filter 4, `phased.filter_on_in_relationship_when_HOM_cant_be_on_one_side`. -/
def filter_on_in_relationship_when_HOM_cant_be_on_one_side
    (bg : BloodGroup) (phased : Bool) : BloodGroup :=
  if phased then
    let bg1 := stepN bg (fun b => cond4 b b.normal)
      "filter_on_in_relationship_when_HOM_cant_be_on_one_side"
    stepCO bg1 cond4
      "filter_on_in_relationship_when_HOM_cant_be_on_one_side"
  else bg

/-- Removal condition of filter 5: a self-pair of one all-HOM allele that is
(strictly) contained in some allele of the state's flattened pair set. -/
def cond5 (bg : BloodGroup) (pairs : List Pair) (p : Pair) : Bool :=
  aEq p.allele1 p.allele2 && allHom bg.variant_pool p.allele1 &&
  (flattenAlleles pairs).any (fun fl => aIn p.allele1 fl)

/-- Filter 5, `phased.filter_on_in_relationship_if_all_HOM_and_phased`
(each state is skipped when it holds fewer than two pairs). -/
def filter_on_in_relationship_if_all_HOM_and_phased
    (bg : BloodGroup) (phased : Bool) : BloodGroup :=
  if phased then
    let bg1 :=
      if bg.normal.length < 2 then bg
      else stepN bg (fun b => cond5 b b.normal)
        "filter_on_in_relationship_if_all_HOM_and_phased"
    if (bg1.co.getD []).length < 2 then bg1
    else stepCO bg1 cond5 "filter_on_in_relationship_if_all_HOM_and_phased"
  else bg

/-- `phased._get_allele_phase_info` as a set for string-valued dicts: the
deduplicated `d[v]` values over the allele's defining variants (a missing
key contributes `none`; Python would raise `KeyError`). -/
def phaseInfoSet (d : List (String × String)) (a : Allele) : List (Option String) :=
  (a.defining_variants.map (dGet d)).dedup

/-- `set(_get_allele_phase_info(allele, bg.variant_pool)) == {Zygosity.HOM}`:
nonempty variant list, every variant homozygous. -/
def zygoAllHomIdx (pool : List (String × Zygosity)) (a : Allele) : Bool :=
  !a.defining_variants.isEmpty &&
    a.defining_variants.all (fun v => dGet pool v == some Zygosity.HOM)

/-- Removal condition of filter 6: no reference allele in the pair, all
phase-set values of both alleles form one single set, not both alleles
all-HOM, and the two alleles' phase-string sets coincide. -/
def cond6 (pool : List (String × Zygosity)) (phd psd : List (String × String))
    (p : Pair) : Bool :=
  !p.containsReference &&
  ((p.allele1.defining_variants ++ p.allele2.defining_variants).map
      (dGet psd)).dedup.length == 1 &&
  !(zygoAllHomIdx pool p.allele1 && zygoAllHomIdx pool p.allele2) &&
  lSetEq (phaseInfoSet phd p.allele1) (phaseInfoSet phd p.allele2)

/-- Filter 6's removal list (`to_remove`): the NORMAL pairs condemned by the
same-phase rule. -/
def tr6 (bg : BloodGroup) : List Pair :=
  bg.normal.filter
    (cond6 bg.variant_pool bg.variant_pool_phase bg.variant_pool_phase_set)

/-- Filter 6's fallback pairs: when the removal covers the whole NORMAL
list, each removed pair contributes the two pairs of the gene's reference
allele with its two alleles; otherwise nothing is appended. -/
def adds6 (bg : BloodGroup) (reference_alleles : String → Allele) : List Pair :=
  if bg.normal.length == (tr6 bg).length then
    (tr6 bg).flatMap (fun p =>
      [⟨reference_alleles bg.type, p.allele1⟩,
       ⟨reference_alleles bg.type, p.allele2⟩])
  else []

/-- Filter 6, `phased.filter_pairs_by_phase`: remove NORMAL pairs whose two
alleles demonstrably sit on the same strand; when the removal would empty
the NORMAL list, first append, for each removed pair, the two pairs of the
gene's reference allele with the removed pair's alleles. -/
def filter_pairs_by_phase (bg : BloodGroup) (phased : Bool)
    (reference_alleles : String → Allele) : BloodGroup :=
  if phased then
    if (tr6 bg).isEmpty then
      { bg with normal := bg.normal ++ adds6 bg reference_alleles }
    else
      removePairsN { bg with normal := bg.normal ++ adds6 bg reference_alleles }
        (tr6 bg) "filter_pairs_by_phase"
  else bg

/-- `phased.check_phase`: exactly one distinct value among the dict entries
whose key is a defining variant of the allele and whose value differs from
the given homozygous sentinel. -/
def checkPhase (d : List (String × String)) (a : Allele) (hom : String) : Bool :=
  (((d.filter (fun kv =>
      a.defining_variants.contains kv.1 && !(kv.2 == hom))).map
    (fun kv => kv.2)).dedup).length == 1

/-- `phased.allele_phase`: the set of dict values over the allele's
defining variants (iterating the dict's entries). -/
def allelePhase (d : List (String × String)) (a : Allele) : List String :=
  ((d.filter (fun kv => a.defining_variants.contains kv.1)).map
    (fun kv => kv.2)).dedup

/-- `phased.possible_to_use_phase`.  Faithful to the source: the phase-value
test is applied to `allele2` twice and never to `allele1`. -/
def possibleToUsePhase (bg : BloodGroup) (p : Pair) : Bool :=
  (checkPhase bg.variant_pool_phase_set p.allele1 "." &&
   checkPhase bg.variant_pool_phase p.allele2 "1/1") &&
  (checkPhase bg.variant_pool_phase_set p.allele2 "." &&
   checkPhase bg.variant_pool_phase p.allele2 "1/1")

/-- `phased.iterate_over_list`: the alleles of the list strictly contained
in some other allele of the list. -/
def iterList (l : List Allele) : List Allele :=
  l.filter (fun a => l.any (fun b => aIn a b))

/-- Stable insertion of an allele into a list sorted by descending
defining-variant count. -/
def insertByLenDesc (a : Allele) : List Allele → List Allele
  | [] => [a]
  | b :: bs =>
    if b.defining_variants.length < a.defining_variants.length then a :: b :: bs
    else b :: insertByLenDesc a bs

/-- `sorted(…, key=len(defining_variants), reverse=True)`.  The sort order
does not influence the removal set computed by filter 7 (membership-based),
so exact tie-breaking is immaterial. -/
def sortByLenDesc (l : List Allele) : List Allele :=
  l.foldl (fun acc a => insertByLenDesc a acc) []

/-- One step of filter 7's bucketing loop: the allele's non-`1/1` phase set
must be a singleton (`assert len(phases) == 1`), and the single phase sends
the allele to the `1|0`, `0|1` or hemizygous `1` bucket; any other single
phase must be unordered or `unknown` (`assert`), contributing nothing. -/
def bucketStep (phd : List (String × String))
    (acc : List Allele × List Allele × List Allele) (a : Allele) :
    Except String (List Allele × List Allele × List Allele) :=
  let phases := ((a.defining_variants.map (dGet phd)).filter
    (fun o => !(o == some "1/1"))).dedup
  match phases with
  | [some "1|0"] => .ok (acc.1 ++ [a], acc.2.1, acc.2.2)
  | [some "0|1"] => .ok (acc.1, acc.2.1 ++ [a], acc.2.2)
  | [some "1"] => .ok (acc.1, acc.2.1, acc.2.2 ++ [a])
  | [some s] =>
    if substrOf s "unknown" || hasChar s '/' then .ok acc
    else .error "AssertionError: unexpected phase"
  | [none] => .error "KeyError: defining variant missing from phase map"
  | _ => .error "AssertionError: len(phases) != 1"

/-- Filter 7's phase-consistent allele buckets: flatten the state's pairs,
keep the alleles whose variants lie in one phase-set and carry one non-`1/1`
phase, sort by descending defining-variant count, and bucket by that phase
(asserting each bucketing step). -/
def buckets7 (bg : BloodGroup) (pairs : List Pair) :
    Except String (List Allele × List Allele × List Allele) :=
  (sortByLenDesc
    (((flattenAlleles pairs).filter
        (fun a => checkPhase bg.variant_pool_phase_set a ".")).filter
      (fun a => checkPhase bg.variant_pool_phase a "1/1"))).foldlM
    (bucketStep bg.variant_pool_phase) ([], [], [])

/-- Filter 7's flagged alleles: the strictly-contained members of each
bucket. -/
def toRm7 (bk : List Allele × List Allele × List Allele) : List Allele :=
  iterList bk.1 ++ iterList bk.2.1 ++ iterList bk.2.2

/-- Filter 7's removal set: the pairs holding a flagged allele. -/
def tr7 (pairs : List Pair) (bk : List Allele × List Allele × List Allele) :
    List Pair :=
  pairs.filter (fun p => memA p.allele1 (toRm7 bk) || memA p.allele2 (toRm7 bk))

/-- The body of filter 7 for one state: bucket the phase-consistent alleles
by their single phase, flag the strictly-contained ones, and remove every
pair holding a flagged allele; the trailing asserts forbid removing every
pair or emptying the state. -/
def impossibleCore (bg : BloodGroup) (pairs : List Pair) (isCO : Bool) :
    Except String BloodGroup := do
  let buckets ← buckets7 bg pairs
  if (tr7 pairs buckets).length == pairs.length then
    .error "AssertionError: len(to_remove) == len(pairs)"
  else
    let bg2 :=
      if (tr7 pairs buckets).isEmpty then bg
      else if isCO then
        removePairsCO bg (tr7 pairs buckets) "filter_impossible_alleles_phased"
      else removePairsN bg (tr7 pairs buckets) "filter_impossible_alleles_phased"
    let remaining := if isCO then bg2.co.getD [] else bg2.normal
    if remaining.isEmpty then .error "AssertionError: state emptied"
    else .ok bg2

/-- Filter 7, `phased.impossible_alleles_phased`.  A state with at most one
pair makes the whole filter return immediately (Python's early `return bg`
inside the state loop). -/
def impossible_alleles_phased (bg : BloodGroup) (phased : Bool) :
    Except String BloodGroup :=
  if phased then
    if bg.normal.length ≤ 1 then .ok bg
    else do
      let bg1 ← impossibleCore bg bg.normal false
      if proceedCO bg1 then
        if (bg1.co.getD []).length ≤ 1 then .ok bg1
        else impossibleCore bg1 (bg1.co.getD []) true
      else .ok bg1
  else .ok bg

/-- The per-pair `assert phase1 != phase2` guard of filters 8 and 9: a
non-excluded eligible pair whose two alleles carry identical phase sets
makes the filter abort. -/
def phaseAssertViolated (bg : BloodGroup) (skipRef : Bool) (p : Pair) : Bool :=
  (!skipRef || !p.containsReference) && possibleToUsePhase bg p &&
    lSetEq (allelePhase bg.variant_pool_phase p.allele1)
      (allelePhase bg.variant_pool_phase p.allele2)

/-- Filter 8, `phased.rm_ref_if_2x_HET_phased`: remove every pair containing
a reference allele when some reference-free, fully phase-resolved pair
exists. -/
def rm_ref_if_2x_HET_phased (bg : BloodGroup) (phased : Bool) :
    Except String BloodGroup :=
  if phased then
    if bg.normal.any (phaseAssertViolated bg true) then
      .error "AssertionError: phase1 == phase2"
    else
      let tr := bg.normal.filter (fun p => p.containsReference)
      let ex := bg.normal.any (fun p =>
        !p.containsReference && possibleToUsePhase bg p)
      .ok (if !tr.isEmpty && ex then removePairsN bg tr "rm_ref_if_2x_HET_phased"
           else bg)
  else .ok bg

/-- Python `min(pairs, key=weight)`: fold keeping the first element of
minimal weight. -/
def pyMinD (h : Int × Pair) (t : List (Int × Pair)) : Int × Pair :=
  t.foldl (fun acc x => if x.1 < acc.1 then x else acc) h

/-- The `min` of the weighted eligible-pair list of filter 9, when the list
is nonempty. -/
def bestOf (l : List (Int × Pair)) : Option (Int × Pair) :=
  match l with
  | [] => none
  | h :: t => some (pyMinD h t)

/-- The weighted eligible pairs of filter 9. -/
def weightedEligible (bg : BloodGroup) : List (Int × Pair) :=
  (bg.normal.filter (possibleToUsePhase bg)).map
    (fun p => (p.allele1.weight_geno + p.allele2.weight_geno, p))

/-- Filter 9, `phased.low_weight_hom`: among the phase-eligible NORMAL pairs,
when at least two exist and their summed weights are not all equal, keep
only the minimum-weight pair and remove every other NORMAL pair. -/
def low_weight_hom (bg : BloodGroup) (phased : Bool) :
    Except String BloodGroup :=
  if phased then
    if bg.normal.any (phaseAssertViolated bg false) then
      .error "AssertionError: phase1 == phase2"
    else
      match weightedEligible bg with
      | [] => .ok bg
      | [_] => .ok bg
      | h :: t =>
        if ((h :: t).map (fun x => x.1)).dedup.length == 1 then .ok bg
        else
          let best := pyMinD h t
          let tr := bg.normal.filter (fun p => !pairEq p best.2)
          .ok (if tr.isEmpty then bg else removePairsN bg tr "low_weight_hom")
  else .ok bg

/-- Removal condition of filter 10 for one allele: a reference allele, not
all of whose defining variants end in `"."`, with some defining variant
absent from the sample's variant pool other than the two documented ABO
indel exceptions. -/
def cond10 (pool : List (String × Zygosity)) (a : Allele) : Bool :=
  a.reference &&
  !(a.defining_variants.all endsWithDot) &&
  a.defining_variants.any (fun v =>
    !(v == "9:133257521_T_TC") && !(v == "136132908_T_TC") &&
    (dGet pool v).isNone)

/-- Filter 10, `phased.no_defining_variant`. -/
def no_defining_variant (bg : BloodGroup) (phased : Bool) : BloodGroup :=
  if phased then
    let tr := bg.normal.filter (fun p =>
      cond10 bg.variant_pool p.allele1 || cond10 bg.variant_pool p.allele2)
    if tr.isEmpty then bg else removePairsN bg tr "no_defining_variant"
  else bg

/-- Removal condition of filter 11 for one allele: a reference allele that
filter 1 recorded in the ledger under `"remove_unphased"`. -/
def cond11 (bg : BloodGroup) (a : Allele) : Bool :=
  a.reference && memA a (ledgerLookupA bg "remove_unphased")

/-- Filter 11, `phased.ref_not_phased`. -/
def ref_not_phased (bg : BloodGroup) (phased : Bool) : BloodGroup :=
  if phased then
    let tr := bg.normal.filter (fun p =>
      cond11 bg p.allele1 || cond11 bg p.allele2)
    if tr.isEmpty then bg else removePairsN bg tr "ref_not_phased"
  else bg

/-- Removal condition of filter 12: an all-reference pair one of whose first
allele's defining variants is observed heterozygous. -/
def cond12 (pool : List (String × Zygosity)) (p : Pair) : Bool :=
  p.allReference && p.allele1.defining_variants.any (fun v =>
    dGet pool v == some Zygosity.HET)

/-- Filter 12, `phased.cant_be_hom_ref_due_to_HET_SNP`. -/
def cant_be_hom_ref_due_to_HET_SNP (bg : BloodGroup) (phased : Bool) :
    BloodGroup :=
  if phased then
    let tr := bg.normal.filter (cond12 bg.variant_pool)
    if tr.isEmpty then bg else removePairsN bg tr "cant_be_hom_ref_due_to_HET_SNP"
  else bg

/-- Modelled from the spec: the candidate set after the first five filters
(the pipeline driver is not among the sources; the spec fixes the order). -/
def stage5 (bg : BloodGroup) : BloodGroup :=
  filter_on_in_relationship_if_all_HOM_and_phased
    (filter_on_in_relationship_when_HOM_cant_be_on_one_side
      (filter_on_in_relationship_if_HET_vars_on_dif_side_and_phased
        (filter_if_all_HET_vars_on_same_side_and_phased
          (remove_unphased bg true) true) true) true) true

/-- Whether filter 6's reference fallback fires on a candidate set: the
same-phase rule removes a nonempty set of pairs covering the whole NORMAL
list. -/
def fires6 (bg : BloodGroup) : Prop :=
  bg.normal.filter
      (cond6 bg.variant_pool bg.variant_pool_phase bg.variant_pool_phase_set)
    ≠ [] ∧
  (bg.normal.filter
      (cond6 bg.variant_pool bg.variant_pool_phase bg.variant_pool_phase_set)).length
    = bg.normal.length

instance (bg : BloodGroup) : Decidable (fires6 bg) := by
  unfold fires6; infer_instance

/-- Modelled from the spec: the full phased filter pipeline, the twelve
filters applied strictly in the spec's order (the driver module is not among
the sources). -/
def runPipeline (reference_alleles : String → Allele) (bg : BloodGroup) :
    Except String BloodGroup := do
  let b7 ← impossible_alleles_phased
    (filter_pairs_by_phase (stage5 bg) true reference_alleles) true
  let b8 ← rm_ref_if_2x_HET_phased b7 true
  let b9 ← low_weight_hom b8 true
  .ok (cant_be_hom_ref_due_to_HET_SNP
        (ref_not_phased (no_defining_variant b9 true) true) true)

/-- Shorthand for building concrete alleles (empty sub-type label). -/
def mkA (g : String) (vars : List String) (w : Int) (r : Bool) : Allele :=
  ⟨g, vars, w, r, ""⟩

/-- Shorthand for building concrete candidate sets with empty ledgers. -/
def mkBG (t : String) (n : List Pair) (f : List Allele)
    (pool : List (String × Zygosity)) (phd psd : List (String × String)) :
    BloodGroup :=
  ⟨t, n, none, f, [], pool, phd, psd, [], []⟩

/-- Scenario 1 allele X: one HET variant phased `1|0` in phase-set 1001. -/
def aX : Allele := mkA "X" ["v1"] 1 false

/-- Scenario 1 allele Y: one HET variant phased `1|0` in phase-set 1001. -/
def aY : Allele := mkA "Y" ["v2"] 1 false

/-- Scenario 1 candidate set: both variants HET, phase `1|0`, one phase-set. -/
def bgS1 : BloodGroup :=
  mkBG "JK" [⟨aX, aY⟩] []
    [("v1", Zygosity.HET), ("v2", Zygosity.HET)]
    [("v1", "1|0"), ("v2", "1|0")]
    [("v1", "1001"), ("v2", "1001")]

/-- Scenario 2 candidate set: as scenario 1 but `v2` phased `0|1`. -/
def bgS2 : BloodGroup :=
  mkBG "JK" [⟨aX, aY⟩] []
    [("v1", Zygosity.HET), ("v2", Zygosity.HET)]
    [("v1", "1|0"), ("v2", "0|1")]
    [("v1", "1001"), ("v2", "1001")]

/-- C5 input: identical ordered phases `1|0` but distinct phase-sets. -/
def bgD : BloodGroup :=
  mkBG "JK" [⟨aX, aY⟩] []
    [("v1", Zygosity.HET), ("v2", Zygosity.HET)]
    [("v1", "1|0"), ("v2", "1|0")]
    [("v1", "1001"), ("v2", "1002")]

/-- C3 input, allele A: one HET variant, hemizygous phase `1`. -/
def a3A : Allele := mkA "A" ["a"] 1 false

/-- C3 input, allele B: one HET variant, hemizygous phase `1`. -/
def a3B : Allele := mkA "B" ["b"] 1 false

/-- C3 input, reference allele over one homozygous variant. -/
def a3R : Allele := mkA "R" ["r"] 1 true

/-- C3 pipeline input: one non-reference pair whose alleles share the
hemizygous phase `1` in one phase-set (removable by filter 6 but invisible
to filter 2, so the fallback fires). -/
def bgC3 : BloodGroup :=
  mkBG "FUT2" [⟨a3A, a3B⟩] [a3A, a3B]
    [("a", Zygosity.HET), ("b", Zygosity.HET), ("r", Zygosity.HOM)]
    [("a", "1"), ("b", "1"), ("r", "1/1")]
    [("a", "711"), ("b", "711"), ("r", ".")]

/-- Reference lookup for the C3 input. -/
def refC3 : String → Allele := fun _ => a3R

/-- C4 input, allele A. -/
def a4A : Allele := mkA "A" ["p"] 1 false

/-- C4 input, allele B. -/
def a4B : Allele := mkA "B" ["q"] 1 false

/-- C4 input, allele C: the homozygous variant `h` plus a HET variant. -/
def a4C : Allele := mkA "C" ["h", "s"] 1 false

/-- C4 input, allele D: the homozygous variant `h` plus a HET variant. -/
def a4D : Allele := mkA "D" ["h", "t"] 1 false

/-- C4 input, reference allele: exactly the homozygous variant `h`. -/
def a4R : Allele := mkA "R" ["h"] 1 true

/-- C4 pipeline input: two non-reference pairs removable by filter 6 (all
phases hemizygous `1` in one phase-set), whose fallback pairs a re-run's
filter 4 then prunes. -/
def bgC4 : BloodGroup :=
  mkBG "FUT2" [⟨a4A, a4B⟩, ⟨a4C, a4D⟩] [a4A, a4B, a4C, a4D]
    [("h", Zygosity.HOM), ("p", Zygosity.HET), ("q", Zygosity.HET),
     ("s", Zygosity.HET), ("t", Zygosity.HET)]
    [("h", "1/1"), ("p", "1"), ("q", "1"), ("s", "1"), ("t", "1")]
    [("h", "711"), ("p", "711"), ("q", "711"), ("s", "711"), ("t", "711")]

/-- Reference lookup for the C4 input. -/
def refC4 : String → Allele := fun _ => a4R

/-- C7 input alleles: a reference-free pair of summed weight 3. -/
def a7A : Allele := mkA "A7" ["a"] 1 false

/-- C7 input alleles: second allele of the weight-3 pair. -/
def a7B : Allele := mkA "B7" ["b"] 2 false

/-- C7 input alleles: a reference-free pair of summed weight 10. -/
def a7C : Allele := mkA "C7" ["c"] 5 false

/-- C7 input alleles: second allele of the weight-10 pair. -/
def a7D : Allele := mkA "D7" ["d"] 5 false

/-- C7 input alleles: a reference allele in a phase-eligible pair. -/
def a7R : Allele := mkA "R7" ["r"] 1 true

/-- C7 input alleles: the reference allele's partner. -/
def a7E : Allele := mkA "E7" ["e"] 1 false

/-- C7 weight-3 reference-free pair. -/
def p7AB : Pair := ⟨a7A, a7B⟩

/-- C7 weight-10 reference-free pair. -/
def p7CD : Pair := ⟨a7C, a7D⟩

/-- C7 weight-2 reference-containing pair. -/
def p7RE : Pair := ⟨a7R, a7E⟩

/-- C7 input: three phase-eligible pairs of summed weights 3, 10 and 2, the
lightest containing the reference allele. -/
def bgC7 : BloodGroup :=
  mkBG "FUT2" [p7AB, p7CD, p7RE] []
    [("a", Zygosity.HET), ("b", Zygosity.HET), ("c", Zygosity.HET),
     ("d", Zygosity.HET), ("r", Zygosity.HET), ("e", Zygosity.HET)]
    [("a", "1|0"), ("b", "0|1"), ("c", "1|0"), ("d", "0|1"),
     ("r", "1|0"), ("e", "0|1")]
    [("a", "1001"), ("b", "1001"), ("c", "1001"), ("d", "1001"),
     ("r", "1001"), ("e", "1001")]

/-- C8 input: a reference allele all of whose defining variants end in `"."`
and are absent from the variant pool. -/
def a8R : Allele := mkA "R8" ["1:100_A_."] 1 true

/-- C8 input: the reference allele's non-reference partner. -/
def a8X : Allele := mkA "X8" ["x"] 1 false

/-- C8 input: the pair of `a8R` and `a8X` survives filter 10 although the
reference allele's variant is absent from the pool. -/
def bgC8 : BloodGroup :=
  mkBG "RHCE" [⟨a8R, a8X⟩] []
    [("x", Zygosity.HET)] [("x", "1|0")] [("x", "1001")]

/-- C8 witness input: a reference allele with one absent and one present
variant, not all ending in `"."`. -/
def a8S : Allele := mkA "S8" ["m", "n"] 1 true

/-- C8 witness input: the filter removes the pair of `a8S` and `a8X`. -/
def bgC8b : BloodGroup :=
  mkBG "RHCE" [⟨a8S, a8X⟩] []
    [("n", Zygosity.HET), ("x", Zygosity.HET)]
    [("n", "1|0"), ("x", "1|0")] [("n", "1001"), ("x", "1001")]

/-- C9 input: a reference allele recorded by filter 1. -/
def a9R : Allele := mkA "R9" ["z"] 1 true

/-- C9 input: non-reference partner allele. -/
def a9X : Allele := mkA "X9" ["x1"] 1 false

/-- C9 input: non-reference allele of the retained pair. -/
def a9Y : Allele := mkA "Y9" ["y1"] 1 false

/-- C9 input: second non-reference allele of the retained pair. -/
def a9Z : Allele := mkA "Z9" ["z1"] 1 false

/-- C9 input: one pair holds the ledger-flagged reference allele, the other
holds no reference allele; the ledger carries filter 1's entry. -/
def bg9 : BloodGroup :=
  { mkBG "RHCE" [⟨a9R, a9X⟩, ⟨a9Y, a9Z⟩] [] [] [] [] with
      ledgerA := [("remove_unphased", [a9R])] }

/-- C10 input, first allele of the duplicated pair. -/
def aTa : Allele := mkA "Aa" ["a"] 1 false

/-- C10 input, second allele of the duplicated pair. -/
def aTb : Allele := mkA "Bb" ["b"] 1 false

/-- C10 input, first allele of the heavier pair. -/
def aTc : Allele := mkA "Cc" ["c"] 2 false

/-- C10 input, second allele of the heavier pair. -/
def aTd : Allele := mkA "Dd" ["d"] 3 false

/-- C10 duplicated weight-2 pair. -/
def pT1 : Pair := ⟨aTa, aTb⟩

/-- C10 weight-5 pair. -/
def pT2 : Pair := ⟨aTc, aTd⟩

/-- C10 input: the NORMAL list holds the weight-2 pair twice and the
weight-5 pair once; filter 9 removes only the heavier pair, leaving two. -/
def bgC10 : BloodGroup :=
  mkBG "FUT2" [pT1, pT1, pT2] []
    [("a", Zygosity.HET), ("b", Zygosity.HET), ("c", Zygosity.HET),
     ("d", Zygosity.HET)]
    [("a", "1|0"), ("b", "0|1"), ("c", "1|0"), ("d", "0|1")]
    [("a", "1001"), ("b", "1001"), ("c", "1001"), ("d", "1001")]

/-- Reference allele used by witness reference lookups. -/
def aWR : Allele := mkA "RW" ["rw"] 1 true

/-- Reference lookup whose alleles all carry the reference flag. -/
def refW : String → Allele := fun _ => aWR

/-- The empty candidate set: the pipeline is the identity on it. -/
def bgEmpty : BloodGroup := mkBG "FUT2" [] [] [] [] []

/-- The CO pair list of a candidate set (empty when absent). -/
def coL (bg : BloodGroup) : List Pair := bg.co.getD []

/-- The second candidate set keeps the first's gene type and read-only
variant/phase/phase-set maps (filters never mutate them). -/
def poolsEq (a b : BloodGroup) : Prop :=
  b.type = a.type ∧ b.variant_pool = a.variant_pool ∧
  b.variant_pool_phase = a.variant_pool_phase ∧
  b.variant_pool_phase_set = a.variant_pool_phase_set

/-- The second candidate set is a pruning of the first: NORMAL/CO pairs and
FILT alleles are sublists, the read-only maps are untouched, and every new
ledger entry records only pairs/alleles of the first set's states. -/
def Shrinks (a b : BloodGroup) : Prop :=
  List.Sublist b.normal a.normal ∧
  List.Sublist (coL b) (coL a) ∧
  List.Sublist b.filt a.filt ∧
  poolsEq a b ∧
  (∀ e ∈ b.ledgerP, e ∈ a.ledgerP ∨ ∀ p ∈ e.2, p ∈ a.normal ∨ p ∈ coL a) ∧
  (∀ e ∈ b.ledgerA, e ∈ a.ledgerA ∨ ∀ x ∈ e.2, x ∈ a.filt)

lemma vsSubset_iff {xs ys : List String} :
    vsSubset xs ys = true ↔ ∀ a ∈ xs, a ∈ ys := by
  simp [vsSubset]

lemma vsEq_iff {xs ys : List String} :
    vsEq xs ys = true ↔ (∀ a ∈ xs, a ∈ ys) ∧ (∀ a ∈ ys, a ∈ xs) := by
  simp [vsEq, vsSubset_iff]

lemma vsEq_mem {xs ys : List String} (h : vsEq xs ys = true) (a : String) :
    a ∈ xs ↔ a ∈ ys := by
  rcases vsEq_iff.mp h with ⟨h1, h2⟩
  exact ⟨fun hx => h1 a hx, fun hy => h2 a hy⟩

lemma vsEq_refl (xs : List String) : vsEq xs xs = true := by
  simp [vsEq_iff]

lemma aEq_iff {a b : Allele} :
    aEq a b = true ↔ vsEq a.defining_variants b.defining_variants = true ∧
      a.genotype = b.genotype ∧ a.weight_geno = b.weight_geno ∧
      a.reference = b.reference ∧ a.sub_type = b.sub_type := by
  simp [aEq, and_assoc]

lemma aEq_refl (a : Allele) : aEq a a = true := by
  simp [aEq_iff, vsEq_refl]

lemma aEq_symm {a b : Allele} (h : aEq a b = true) : aEq b a = true := by
  rcases aEq_iff.mp h with ⟨hv, h1, h2, h3, h4⟩
  refine aEq_iff.mpr ⟨?_, h1.symm, h2.symm, h3.symm, h4.symm⟩
  rcases vsEq_iff.mp hv with ⟨s1, s2⟩
  exact vsEq_iff.mpr ⟨s2, s1⟩

lemma aEq_trans {a b c : Allele} (h1 : aEq a b = true) (h2 : aEq b c = true) :
    aEq a c = true := by
  rcases aEq_iff.mp h1 with ⟨hv, g1, w1, r1, s1⟩
  rcases aEq_iff.mp h2 with ⟨hv2, g2, w2, r2, s2⟩
  refine aEq_iff.mpr ⟨?_, g1.trans g2, w1.trans w2, r1.trans r2, s1.trans s2⟩
  rcases vsEq_iff.mp hv with ⟨p1, p2⟩
  rcases vsEq_iff.mp hv2 with ⟨q1, q2⟩
  exact vsEq_iff.mpr ⟨fun x hx => q1 x (p1 x hx), fun x hx => p2 x (q2 x hx)⟩

lemma aEq_vars_mem {a b : Allele} (h : aEq a b = true) (v : String) :
    v ∈ a.defining_variants ↔ v ∈ b.defining_variants :=
  vsEq_mem (aEq_iff.mp h).1 v

lemma aEq_reference {a b : Allele} (h : aEq a b = true) :
    a.reference = b.reference :=
  (aEq_iff.mp h).2.2.2.1

lemma pairEq_iff {p q : Pair} :
    pairEq p q = true ↔
      (aEq p.allele1 q.allele1 = true ∧ aEq p.allele2 q.allele2 = true) ∨
      (aEq p.allele1 q.allele2 = true ∧ aEq p.allele2 q.allele1 = true) := by
  simp [pairEq]

lemma pairEq_refl (p : Pair) : pairEq p p = true :=
  pairEq_iff.mpr (Or.inl ⟨aEq_refl _, aEq_refl _⟩)

lemma pairEq_symm {p q : Pair} (h : pairEq p q = true) : pairEq q p = true := by
  rcases pairEq_iff.mp h with ⟨h1, h2⟩ | ⟨h1, h2⟩
  · exact pairEq_iff.mpr (Or.inl ⟨aEq_symm h1, aEq_symm h2⟩)
  · exact pairEq_iff.mpr (Or.inr ⟨aEq_symm h2, aEq_symm h1⟩)

lemma pairEq_trans {p q r : Pair} (h1 : pairEq p q = true)
    (h2 : pairEq q r = true) : pairEq p r = true := by
  rcases pairEq_iff.mp h1 with ⟨a1, a2⟩ | ⟨a1, a2⟩ <;>
    rcases pairEq_iff.mp h2 with ⟨b1, b2⟩ | ⟨b1, b2⟩
  · exact pairEq_iff.mpr (Or.inl ⟨aEq_trans a1 b1, aEq_trans a2 b2⟩)
  · exact pairEq_iff.mpr (Or.inr ⟨aEq_trans a1 b1, aEq_trans a2 b2⟩)
  · exact pairEq_iff.mpr (Or.inr ⟨aEq_trans a1 b2, aEq_trans a2 b1⟩)
  · exact pairEq_iff.mpr (Or.inl ⟨aEq_trans a1 b2, aEq_trans a2 b1⟩)

lemma memP_iff {p : Pair} {l : List Pair} :
    memP p l = true ↔ ∃ q ∈ l, pairEq p q = true := by
  simp [memP]

lemma memA_iff {a : Allele} {l : List Allele} :
    memA a l = true ↔ ∃ b ∈ l, aEq a b = true := by
  simp [memA]

lemma memP_of_mem {p : Pair} {l : List Pair} (h : p ∈ l) : memP p l = true :=
  memP_iff.mpr ⟨p, h, pairEq_refl p⟩

lemma cond6_not_ref {pool : List (String × Zygosity)}
    {phd psd : List (String × String)} {p : Pair}
    (h : cond6 pool phd psd p = true) : p.containsReference = false := by
  simp only [cond6, Bool.and_eq_true, Bool.not_eq_true'] at h
  exact h.1.1.1

lemma containsReference_false {p : Pair} (h : p.containsReference = false) :
    p.allele1.reference = false ∧ p.allele2.reference = false := by
  simpa [Pair.containsReference] using h

/-- Claim C1: when filter 6's same-phase rule removes every pair of a
non-empty NORMAL list (all pairs non-reference and condemned), the fallback
replaces each removed pair by exactly the two pairs of the gene's reference
allele with the removed pair's two alleles, so the resulting NORMAL list is
non-empty. -/
theorem c1_filter6_fallback_preserves_nonempty (bg : BloodGroup)
    (refA : String → Allele)
    (href : (refA bg.type).reference = true)
    (hne : bg.normal ≠ [])
    (hall : ∀ p ∈ bg.normal,
      cond6 bg.variant_pool bg.variant_pool_phase bg.variant_pool_phase_set p
        = true) :
    (filter_pairs_by_phase bg true refA).normal
        = bg.normal.flatMap
            (fun p => [⟨refA bg.type, p.allele1⟩, ⟨refA bg.type, p.allele2⟩]) ∧
    (filter_pairs_by_phase bg true refA).normal ≠ [] := by
  have htr : bg.normal.filter
      (cond6 bg.variant_pool bg.variant_pool_phase bg.variant_pool_phase_set)
      = bg.normal := List.filter_eq_self.mpr hall
  have hie : bg.normal.isEmpty = false := by
    cases h : bg.normal with
    | nil => exact absurd h hne
    | cons a l => rfl
  have hadds : ∀ q ∈ bg.normal.flatMap
      (fun p => [(⟨refA bg.type, p.allele1⟩ : Pair),
                 ⟨refA bg.type, p.allele2⟩]),
      memP q bg.normal = false := by
    intro q hq
    rcases List.mem_flatMap.mp hq with ⟨p, _, hqmem⟩
    simp only [List.mem_cons, List.mem_singleton, List.not_mem_nil,
      or_false] at hqmem
    have hq1 : q.allele1 = refA bg.type := by
      rcases hqmem with h | h <;> rw [h]
    by_contra hmem
    rcases memP_iff.mp (eq_true_of_ne_false hmem) with ⟨p2, hp2, hpe⟩
    have hcr := containsReference_false (cond6_not_ref (hall p2 hp2))
    rcases pairEq_iff.mp hpe with ⟨h1, _⟩ | ⟨h1, _⟩
    · have := aEq_reference h1
      rw [hq1, href, hcr.1] at this
      exact Bool.noConfusion this
    · have := aEq_reference h1
      rw [hq1, href, hcr.2] at this
      exact Bool.noConfusion this
  have hmain : (filter_pairs_by_phase bg true refA).normal
      = bg.normal.flatMap
          (fun p => [⟨refA bg.type, p.allele1⟩, ⟨refA bg.type, p.allele2⟩]) := by
    simp only [filter_pairs_by_phase, tr6, adds6, if_true, htr,
      beq_self_eq_true, hie, Bool.false_eq_true, if_false, removePairsN]
    rw [List.filter_append]
    rw [List.filter_eq_nil_iff.mpr
      (fun p hp => by simp [memP_of_mem hp])]
    rw [List.filter_eq_self.mpr
      (fun q hq => by simp [hadds q hq])]
    simp
  refine ⟨hmain, ?_⟩
  rw [hmain]
  cases h : bg.normal with
  | nil => exact absurd h hne
  | cons a l => simp

/-- Claim C1 witness: scenario-1 style input where the fallback fires. -/
theorem c1_witness :
    (refW bgS1.type).reference = true ∧ bgS1.normal ≠ [] ∧
    (∀ p ∈ bgS1.normal,
      cond6 bgS1.variant_pool bgS1.variant_pool_phase
        bgS1.variant_pool_phase_set p = true) ∧
    (filter_pairs_by_phase bgS1 true refW).normal ≠ [] :=
  ⟨by decide, by decide, by decide,
    (c1_filter6_fallback_preserves_nonempty bgS1 refW (by decide) (by decide)
      (by decide)).2⟩

lemma cond2_iff {pool : List (String × Zygosity)} {phd : List (String × String)}
    {p : Pair} :
    cond2 pool phd p = true ↔
      ∃ v ∈ p.allele1.defining_variants,
        dGet pool v = some Zygosity.HET ∧
        ∃ v2 ∈ p.allele2.defining_variants,
          dGet pool v2 = some Zygosity.HET ∧
          dIdx phd v = dIdx phd v2 ∧
          hasChar (dIdx phd v) '|' = true := by
  simp [cond2, List.any_eq_true, and_assoc]

lemma cond2_pairEq {pool : List (String × Zygosity)}
    {phd : List (String × String)} {p q : Pair}
    (hpe : pairEq p q = true) (hq : cond2 pool phd q = true) :
    cond2 pool phd p = true := by
  rcases cond2_iff.mp hq with ⟨v, hv, hHET, v2, hv2, hHET2, heq, hbar⟩
  rcases pairEq_iff.mp hpe with ⟨h1, h2⟩ | ⟨h1, h2⟩
  · exact cond2_iff.mpr ⟨v, (aEq_vars_mem h1 v).mpr hv, hHET,
      v2, (aEq_vars_mem h2 v2).mpr hv2, hHET2, heq, hbar⟩
  · exact cond2_iff.mpr ⟨v2, (aEq_vars_mem h1 v2).mpr hv2, hHET2,
      v, (aEq_vars_mem h2 v).mpr hv, hHET, heq.symm, heq ▸ hbar⟩

lemma stepN_mem {bg : BloodGroup} {cond : BloodGroup → Pair → Bool}
    {name : String} {p : Pair} (hp : p ∈ bg.normal)
    (hno : ∀ q ∈ bg.normal, pairEq p q = true → cond bg q = false) :
    p ∈ (stepN bg cond name).normal := by
  have hmem : memP p (bg.normal.filter (cond bg)) = false := by
    by_contra hc
    rcases memP_iff.mp (eq_true_of_ne_false hc) with ⟨q, hqf, hpe⟩
    rcases List.mem_filter.mp hqf with ⟨hqmem, hqc⟩
    rw [hno q hqmem hpe] at hqc
    exact Bool.noConfusion hqc
  unfold stepN
  cases h : (bg.normal.filter (cond bg)).isEmpty with
  | true => simpa [h] using hp
  | false =>
    simp only [h, Bool.false_eq_true, if_false, removePairsN]
    exact List.mem_filter.mpr ⟨hp, by simp [hmem]⟩

lemma stepCO_normal (bg : BloodGroup) (cond : BloodGroup → List Pair → Pair → Bool)
    (name : String) : (stepCO bg cond name).normal = bg.normal := by
  unfold stepCO removePairsCO
  by_cases h1 : proceedCO bg = true
  · simp only [h1, if_true]
    by_cases h2 : ((bg.co.getD []).filter
        (cond bg (bg.co.getD []))).isEmpty = true
    · simp [h2]
    · simp [h2]
  · simp [h1]

/-- Claim C5 (amended): filter 2 compares only ordered phase strings and
never consults phase-sets; a pair is retained precisely when no HET defining
variant of `allele1` shares a textually identical ordered phase with a HET
defining variant of `allele2` (regardless of phase-sets). -/
theorem c5_amended_no_shared_ordered_phase_retained (bg : BloodGroup)
    (p : Pair) (hp : p ∈ bg.normal)
    (h : ∀ v ∈ p.allele1.defining_variants,
      ∀ v2 ∈ p.allele2.defining_variants,
        dGet bg.variant_pool v = some Zygosity.HET →
        dGet bg.variant_pool v2 = some Zygosity.HET →
        ¬(dIdx bg.variant_pool_phase v = dIdx bg.variant_pool_phase v2 ∧
          hasChar (dIdx bg.variant_pool_phase v) '|' = true)) :
    p ∈ (filter_if_all_HET_vars_on_same_side_and_phased bg true).normal := by
  have hc : cond2 bg.variant_pool bg.variant_pool_phase p = false := by
    cases hcv : cond2 bg.variant_pool bg.variant_pool_phase p with
    | false => rfl
    | true =>
      rcases cond2_iff.mp hcv with ⟨v, hv, hHET, v2, hv2, hHET2, heq, hbar⟩
      exact absurd ⟨heq, hbar⟩ (h v hv v2 hv2 hHET hHET2)
  have hstep : p ∈ (stepN bg
      (fun b => cond2 b.variant_pool b.variant_pool_phase)
      "filter_if_all_HET_vars_on_same_side_and_phased").normal := by
    refine stepN_mem hp ?_
    intro q _ hpe
    cases hq : cond2 bg.variant_pool bg.variant_pool_phase q with
    | false => rfl
    | true => rw [cond2_pairEq hpe hq] at hc; exact Bool.noConfusion hc
  unfold filter_if_all_HET_vars_on_same_side_and_phased
  rw [if_pos rfl, stepCO_normal]
  exact hstep

/-- Claim C5 (amended) witness: scenario-2 input, pair retained. -/
theorem c5_amended_witness :
    (⟨aX, aY⟩ : Pair) ∈ bgS2.normal ∧
    (⟨aX, aY⟩ : Pair)
      ∈ (filter_if_all_HET_vars_on_same_side_and_phased bgS2 true).normal :=
  ⟨by decide,
    c5_amended_no_shared_ordered_phase_retained bgS2 ⟨aX, aY⟩ (by decide)
      (by decide)⟩

lemma removal_not_mem {bg : BloodGroup} {tr : List Pair} {name : String}
    {p : Pair} (hin : p ∈ tr) :
    p ∉ (removePairsN bg tr name).normal := by
  intro hmem
  rcases List.mem_filter.mp hmem with ⟨_, hkeep⟩
  rw [memP_of_mem hin] at hkeep
  exact Bool.noConfusion hkeep

lemma cond10_of_facts (bg : BloodGroup) {a : Allele}
    (href : a.reference = true)
    (hdot : ¬(∀ v ∈ a.defining_variants, endsWithDot v = true))
    (habs : ∃ v ∈ a.defining_variants, dGet bg.variant_pool v = none ∧
      v ≠ "9:133257521_T_TC" ∧ v ≠ "136132908_T_TC") :
    cond10 bg.variant_pool a = true := by
  rcases habs with ⟨v, hv, hnone, hne1, hne2⟩
  simp only [cond10, Bool.and_eq_true, List.any_eq_true, Bool.not_eq_true']
  refine ⟨⟨href, ?_⟩, ⟨v, hv, ?_⟩⟩
  · cases hall : a.defining_variants.all endsWithDot with
    | false => rfl
    | true =>
      exact absurd (fun v hv => List.all_eq_true.mp hall v hv) hdot
  · simp [hne1, hne2, hnone]

/-- Claim C8 (amended): filter 10 removes every NORMAL pair containing a
reference allele that has a defining variant absent from the variant pool
other than the two ABO indel exceptions — unless every defining variant of
that reference allele ends in `"."`, in which case the allele is skipped. -/
theorem c8_amended_absent_variant_pair_removed (bg : BloodGroup) (p : Pair)
    (a : Allele) (hp : p ∈ bg.normal) (ha : a ∈ p.toList)
    (href : a.reference = true)
    (hdot : ¬(∀ v ∈ a.defining_variants, endsWithDot v = true))
    (habs : ∃ v ∈ a.defining_variants, dGet bg.variant_pool v = none ∧
      v ≠ "9:133257521_T_TC" ∧ v ≠ "136132908_T_TC") :
    p ∉ (no_defining_variant bg true).normal := by
  have hcond : (cond10 bg.variant_pool p.allele1 ||
      cond10 bg.variant_pool p.allele2) = true := by
    have h10 := cond10_of_facts bg href hdot habs
    rcases List.mem_cons.mp ha with h | h
    · rw [h] at h10
      simp [h10]
    · simp only [List.mem_singleton] at h
      rw [h] at h10
      simp [h10]
  have hin : p ∈ bg.normal.filter (fun q =>
      cond10 bg.variant_pool q.allele1 || cond10 bg.variant_pool q.allele2) :=
    List.mem_filter.mpr ⟨hp, hcond⟩
  have hie : (bg.normal.filter (fun q =>
      cond10 bg.variant_pool q.allele1 ||
        cond10 bg.variant_pool q.allele2)).isEmpty = false := by
    cases hl : bg.normal.filter (fun q =>
        cond10 bg.variant_pool q.allele1 || cond10 bg.variant_pool q.allele2) with
    | nil => rw [hl] at hin; exact absurd hin (List.not_mem_nil p)
    | cons x xs => rfl
  show p ∉ (if _ then _ else _ : BloodGroup).normal
  rw [if_pos rfl]
  simp only [hie, Bool.false_eq_true, if_false]
  exact removal_not_mem hin

/-- Claim C8 (amended) witness: a reference allele with an absent variant
`m` and a present variant `n` (not all dot-terminated) — pair removed. -/
theorem c8_amended_witness :
    ((⟨a8S, a8X⟩ : Pair) ∈ bgC8b.normal) ∧
    (⟨a8S, a8X⟩ : Pair) ∉ (no_defining_variant bgC8b true).normal :=
  ⟨by decide,
    c8_amended_absent_variant_pair_removed bgC8b ⟨a8S, a8X⟩ a8S (by decide)
      (by decide) (by decide) (by decide) ⟨"m", by decide, by decide,
        by decide, by decide⟩⟩

lemma cond11_aEq {bg : BloodGroup} {a b : Allele} (h : aEq a b = true)
    (hb : cond11 bg b = true) : cond11 bg a = true := by
  simp only [cond11, Bool.and_eq_true] at hb ⊢
  rcases hb with ⟨hr, hm⟩
  refine ⟨(aEq_reference h).trans hr, ?_⟩
  rcases memA_iff.mp hm with ⟨c, hc, hbc⟩
  exact memA_iff.mpr ⟨c, hc, aEq_trans h hbc⟩

lemma cond11P_pairEq {bg : BloodGroup} {p q : Pair}
    (hpe : pairEq p q = true)
    (hq : (cond11 bg q.allele1 || cond11 bg q.allele2) = true) :
    (cond11 bg p.allele1 || cond11 bg p.allele2) = true := by
  rcases pairEq_iff.mp hpe with ⟨h1, h2⟩ | ⟨h1, h2⟩ <;>
    rcases Bool.or_eq_true_iff.mp hq with hc | hc
  · exact Bool.or_eq_true_iff.mpr (Or.inl (cond11_aEq h1 hc))
  · exact Bool.or_eq_true_iff.mpr (Or.inr (cond11_aEq h2 hc))
  · exact Bool.or_eq_true_iff.mpr (Or.inr (cond11_aEq h2 hc))
  · exact Bool.or_eq_true_iff.mpr (Or.inl (cond11_aEq h1 hc))

/-- Claim C9: filter 11 removes every NORMAL pair containing a reference
allele that filter 1 recorded under `"remove_unphased"` in the ledger, and
retains every pair with no such allele (in particular pairs with no
reference allele). -/
theorem c9_ref_not_phased_ledger (bg : BloodGroup) (p : Pair)
    (hp : p ∈ bg.normal) :
    ((∃ a ∈ p.toList, a.reference = true ∧
        memA a (ledgerLookupA bg "remove_unphased") = true) →
      p ∉ (ref_not_phased bg true).normal) ∧
    ((∀ a ∈ p.toList, ¬(a.reference = true ∧
        memA a (ledgerLookupA bg "remove_unphased") = true)) →
      p ∈ (ref_not_phased bg true).normal) := by
  constructor
  · intro hyes
    have hcond : (cond11 bg p.allele1 || cond11 bg p.allele2) = true := by
      rcases hyes with ⟨a, ha, hr, hm⟩
      rcases List.mem_cons.mp ha with h | h
      · refine Bool.or_eq_true_iff.mpr (Or.inl ?_)
        rw [← h]
        simp [cond11, hr, hm]
      · simp only [List.mem_singleton] at h
        refine Bool.or_eq_true_iff.mpr (Or.inr ?_)
        rw [← h]
        simp [cond11, hr, hm]
    have hin : p ∈ bg.normal.filter (fun q =>
        cond11 bg q.allele1 || cond11 bg q.allele2) :=
      List.mem_filter.mpr ⟨hp, hcond⟩
    have hie : (bg.normal.filter (fun q =>
        cond11 bg q.allele1 || cond11 bg q.allele2)).isEmpty = false := by
      cases hl : bg.normal.filter (fun q =>
          cond11 bg q.allele1 || cond11 bg q.allele2) with
      | nil => rw [hl] at hin; exact absurd hin (List.not_mem_nil p)
      | cons x xs => rfl
    show p ∉ (if _ then _ else _ : BloodGroup).normal
    rw [if_pos rfl]
    simp only [hie, Bool.false_eq_true, if_false]
    exact removal_not_mem hin
  · intro hno
    have hc : (cond11 bg p.allele1 || cond11 bg p.allele2) = false := by
      cases hcv : (cond11 bg p.allele1 || cond11 bg p.allele2) with
      | false => rfl
      | true =>
        rcases Bool.or_eq_true_iff.mp hcv with h | h
        · rcases Bool.and_eq_true_iff.mp (by simpa [cond11] using h) with ⟨hr, hm⟩
          exact absurd ⟨hr, hm⟩ (hno p.allele1 (by simp [Pair.toList]))
        · rcases Bool.and_eq_true_iff.mp (by simpa [cond11] using h) with ⟨hr, hm⟩
          exact absurd ⟨hr, hm⟩ (hno p.allele2 (by simp [Pair.toList]))
    have hmem : memP p (bg.normal.filter (fun q =>
        cond11 bg q.allele1 || cond11 bg q.allele2)) = false := by
      by_contra hcv
      rcases memP_iff.mp (eq_true_of_ne_false hcv) with ⟨q, hqf, hpe⟩
      rcases List.mem_filter.mp hqf with ⟨_, hqc⟩
      rw [cond11P_pairEq hpe hqc] at hc
      exact Bool.noConfusion hc
    show p ∈ (if _ then _ else _ : BloodGroup).normal
    rw [if_pos rfl]
    cases hie : (bg.normal.filter (fun q =>
        cond11 bg q.allele1 || cond11 bg q.allele2)).isEmpty with
    | true => simpa [hie] using hp
    | false =>
      simp only [hie, Bool.false_eq_true, if_false, removePairsN]
      exact List.mem_filter.mpr ⟨hp, by simp [hmem]⟩

/-- Claim C9 witness: the flagged-reference pair is removed, the
reference-free pair is retained. -/
theorem c9_witness :
    (⟨a9R, a9X⟩ : Pair) ∉ (ref_not_phased bg9 true).normal ∧
    (⟨a9Y, a9Z⟩ : Pair) ∈ (ref_not_phased bg9 true).normal :=
  ⟨(c9_ref_not_phased_ledger bg9 ⟨a9R, a9X⟩ (by decide)).1
      ⟨a9R, by decide, by decide, by decide⟩,
    (c9_ref_not_phased_ledger bg9 ⟨a9Y, a9Z⟩ (by decide)).2 (by decide)⟩

/-- Claim C2: every filter of the pipeline called with `phased = False`
returns its input candidate set unchanged (allele collections, variant and
phase maps and removal ledger all identical). -/
theorem c2_phased_false_noop (bg : BloodGroup) (refA : String → Allele) :
    remove_unphased bg false = bg ∧
    filter_if_all_HET_vars_on_same_side_and_phased bg false = bg ∧
    filter_on_in_relationship_if_HET_vars_on_dif_side_and_phased bg false = bg ∧
    filter_on_in_relationship_when_HOM_cant_be_on_one_side bg false = bg ∧
    filter_on_in_relationship_if_all_HOM_and_phased bg false = bg ∧
    filter_pairs_by_phase bg false refA = bg ∧
    impossible_alleles_phased bg false = .ok bg ∧
    rm_ref_if_2x_HET_phased bg false = .ok bg ∧
    low_weight_hom bg false = .ok bg ∧
    no_defining_variant bg false = bg ∧
    ref_not_phased bg false = bg ∧
    cant_be_hom_ref_due_to_HET_SNP bg false = bg :=
  ⟨rfl, rfl, rfl, rfl, rfl, rfl, rfl, rfl, rfl, rfl, rfl, rfl⟩

/-- Claim C6: with both variants HET in one phase-set, filter 2 removes the
pair when the ordered phases coincide (`1|0`/`1|0`) and retains it when they
are opposite (`1|0`/`0|1`). -/
theorem c6_filter2_scenarios :
    (filter_if_all_HET_vars_on_same_side_and_phased bgS1 true).normal = [] ∧
    (filter_if_all_HET_vars_on_same_side_and_phased bgS2 true).normal
      = [⟨aX, aY⟩] := by
  decide

/-- Claim C5 counterexample: the two alleles' HET defining variants lie in
distinct phase-sets, yet filter 2 removes the pair because the ordered phase
strings are textually identical — the filter never consults phase-sets. -/
theorem c5_counterexample_different_phase_sets :
    dIdx bgD.variant_pool_phase_set "v1" = "1001" ∧
    dIdx bgD.variant_pool_phase_set "v2" = "1002" ∧
    dIdx bgD.variant_pool_phase "v1" = dIdx bgD.variant_pool_phase "v2" ∧
    (filter_if_all_HET_vars_on_same_side_and_phased bgD true).normal = [] := by
  decide

/-- Claim C3 counterexample: on a one-pair candidate set whose pair triggers
filter 6's fallback, the full pipeline ends with two NORMAL pairs — the
surviving pair count exceeds the pre-pipeline count. -/
theorem c3_counterexample_count_grows :
    bgC3.normal.length = 1 ∧
    ((runPipeline refC3 bgC3).toOption.map (fun b => b.normal.length))
      = some 2 := by
  decide

/-- Claim C4 counterexample: the pipeline maps `bgC4` to a four-pair set, but
re-running the pipeline on that output removes two further pairs (filter 4
prunes fallback pairs that filter 6 created after filter 4 had already run),
so the pipeline is not idempotent. -/
theorem c4_counterexample_not_idempotent :
    ((runPipeline refC4 bgC4).toOption.map (fun b => b.normal.length))
      = some 4 ∧
    (((runPipeline refC4 bgC4).bind (runPipeline refC4)).toOption.map
        (fun b => b.normal.length)) = some 2 := by
  decide

lemma pyMinD_mem (h : Int × Pair) (t : List (Int × Pair)) :
    pyMinD h t ∈ h :: t := by
  induction t generalizing h with
  | nil => simp [pyMinD]
  | cons x xs ih =>
    have hstep : pyMinD h (x :: xs) = pyMinD (if x.1 < h.1 then x else h) xs :=
      rfl
    rw [hstep]
    by_cases hc : x.1 < h.1
    · rw [if_pos hc]
      rcases List.mem_cons.mp (ih x) with he | hxs
      · rw [he]
        exact List.mem_cons.mpr (Or.inr (List.mem_cons.mpr (Or.inl rfl)))
      · exact List.mem_cons.mpr (Or.inr (List.mem_cons.mpr (Or.inr hxs)))
    · rw [if_neg hc]
      rcases List.mem_cons.mp (ih h) with he | hxs
      · rw [he]
        exact List.mem_cons.mpr (Or.inl rfl)
      · exact List.mem_cons.mpr (Or.inr (List.mem_cons.mpr (Or.inr hxs)))

lemma weightedEligible_mem {bg : BloodGroup} {x : Int × Pair}
    (hx : x ∈ weightedEligible bg) : x.2 ∈ bg.normal := by
  unfold weightedEligible at hx
  rcases List.mem_map.mp hx with ⟨p, hpf, he⟩
  rcases List.mem_filter.mp hpf with ⟨hpn, _⟩
  rw [← he]
  exact hpn

lemma lwh_result (bg : BloodGroup) (h0 : Int × Pair) (t0 : List (Int × Pair))
    (hA : bg.normal.any (phaseAssertViolated bg false) = false)
    (hE : weightedEligible bg = h0 :: t0) (ht : t0 ≠ [])
    (hW : ((h0 :: t0).map (fun x => x.1)).dedup.length ≠ 1) :
    ∃ bg2, low_weight_hom bg true = .ok bg2 ∧
      bg2.normal = bg.normal.filter (fun p => pairEq p (pyMinD h0 t0).2) := by
  obtain ⟨t1, ts, rfl⟩ : ∃ t1 ts, t0 = t1 :: ts := by
    cases t0 with
    | nil => exact absurd rfl ht
    | cons a l => exact ⟨a, l, rfl⟩
  have hbeq : (((h0 :: t1 :: ts).map (fun x => x.1)).dedup.length == 1)
      = false := by
    exact beq_eq_false_iff_ne.mpr hW
  have hlwh : low_weight_hom bg true
      = .ok (if (bg.normal.filter
            (fun p => !pairEq p (pyMinD h0 (t1 :: ts)).2)).isEmpty then bg
          else removePairsN bg (bg.normal.filter
            (fun p => !pairEq p (pyMinD h0 (t1 :: ts)).2)) "low_weight_hom") := by
    unfold low_weight_hom
    rw [if_pos rfl]
    simp only [hA, Bool.false_eq_true, if_false, hE, hbeq]
  cases hie : (bg.normal.filter
      (fun p => !pairEq p (pyMinD h0 (t1 :: ts)).2)).isEmpty with
  | true =>
    refine ⟨bg, by rw [hlwh, if_pos (by rw [hie])], ?_⟩
    have hall : ∀ p ∈ bg.normal, pairEq p (pyMinD h0 (t1 :: ts)).2 = true := by
      intro p hp
      have hnil := List.isEmpty_iff.mp hie
      by_contra hc
      have hpin : p ∈ bg.normal.filter
          (fun q => !pairEq q (pyMinD h0 (t1 :: ts)).2) :=
        List.mem_filter.mpr ⟨hp, by simp [Bool.not_eq_true] at hc ⊢; exact hc⟩
      rw [hnil] at hpin
      exact absurd hpin (List.not_mem_nil p)
    exact (List.filter_eq_self.mpr hall).symm
  | false =>
    refine ⟨_, by rw [hlwh, if_neg (by rw [hie]; exact Bool.noConfusion)], ?_⟩
    show (bg.normal.filter (fun p => !memP p (bg.normal.filter
        (fun q => !pairEq q (pyMinD h0 (t1 :: ts)).2))))
      = bg.normal.filter (fun p => pairEq p (pyMinD h0 (t1 :: ts)).2)
    refine List.filter_congr ?_
    intro p hp
    cases hpe : pairEq p (pyMinD h0 (t1 :: ts)).2 with
    | true =>
      have hmem : memP p (bg.normal.filter
          (fun q => !pairEq q (pyMinD h0 (t1 :: ts)).2)) = false := by
        by_contra hc
        rcases memP_iff.mp (eq_true_of_ne_false hc) with ⟨q, hqf, hpq⟩
        rcases List.mem_filter.mp hqf with ⟨_, hqb⟩
        have : pairEq q (pyMinD h0 (t1 :: ts)).2 = true :=
          pairEq_trans (pairEq_symm hpq) hpe
        rw [this] at hqb
        exact Bool.noConfusion hqb
      rw [hmem]
      rfl
    | false =>
      have hpin : p ∈ bg.normal.filter
          (fun q => !pairEq q (pyMinD h0 (t1 :: ts)).2) :=
        List.mem_filter.mpr ⟨hp, by simp [hpe]⟩
      rw [memP_of_mem hpin]
      rfl

lemma filter_pairEq_singleton {l : List Pair} {b : Pair} (hb : b ∈ l)
    (hnd : l.Pairwise (fun p q => pairEq p q = false)) :
    l.filter (fun p => pairEq p b) = [b] := by
  induction l with
  | nil => cases hb
  | cons x xs ih =>
    rcases List.pairwise_cons.mp hnd with ⟨hx, hxs⟩
    rcases List.mem_cons.mp hb with hbx | hbxs
    · rw [← hbx] at hx ⊢
      have h1 : List.filter (fun p => pairEq p b) (b :: xs)
          = b :: List.filter (fun p => pairEq p b) xs :=
        List.filter_cons_of_pos (pairEq_refl b)
      rw [h1]
      have hnil : xs.filter (fun p => pairEq p b) = [] := by
        refine List.filter_eq_nil_iff.mpr ?_
        intro y hy
        intro hcon
        have := pairEq_symm hcon
        rw [hx y hy] at this
        exact Bool.noConfusion this
      rw [hnil]
    · have hxb : pairEq x b = false := hx b hbxs
      have h1 : List.filter (fun p => pairEq p b) (x :: xs)
          = List.filter (fun p => pairEq p b) xs :=
        List.filter_cons_of_neg (by simp [hxb])
      rw [h1]
      exact ih hbxs hxs

/-- Claim C7 (amended): among the NORMAL pairs satisfying the 2×HET-phased
eligibility condition (`possible_to_use_phase`, which does not exclude
reference-containing pairs), when at least two exist and their summed
`weight_geno` values are not all equal, the first pair attaining the minimum
summed weight is kept and is still present in NORMAL after `low_weight_hom`. -/
theorem c7_amended_min_weight_eligible_pair_kept (bg : BloodGroup)
    (h0 : Int × Pair) (t0 : List (Int × Pair))
    (hA : bg.normal.any (phaseAssertViolated bg false) = false)
    (hE : weightedEligible bg = h0 :: t0) (ht : t0 ≠ [])
    (hW : ((h0 :: t0).map (fun x => x.1)).dedup.length ≠ 1) :
    ∃ bg2, low_weight_hom bg true = .ok bg2 ∧
      (pyMinD h0 t0).2 ∈ bg2.normal := by
  obtain ⟨bg2, hok, hn⟩ := lwh_result bg h0 t0 hA hE ht hW
  refine ⟨bg2, hok, ?_⟩
  rw [hn]
  refine List.mem_filter.mpr ⟨?_, pairEq_refl _⟩
  have hmem : pyMinD h0 t0 ∈ h0 :: t0 := pyMinD_mem _ _
  rw [← hE] at hmem
  exact weightedEligible_mem hmem

/-- Claim C7 (amended) witness: on `bgC7` the kept pair is the weight-2
reference pair `p7RE`. -/
theorem c7_amended_witness :
    ∃ bg2, low_weight_hom bgC7 true = .ok bg2 ∧
      (pyMinD (3, p7AB) [(10, p7CD), (2, p7RE)]).2 ∈ bg2.normal :=
  c7_amended_min_weight_eligible_pair_kept bgC7 (3, p7AB) [(10, p7CD), (2, p7RE)]
    (by decide) (by decide) (by decide) (by decide)

/-- Claim C10 (amended): whenever `low_weight_hom` is triggered (at least two
phase-eligible NORMAL pairs with not-all-equal summed weights), every NORMAL
pair not equal (as an unordered pair) to the minimum-weight eligible pair is
removed — including non-competing pairs — and, provided the NORMAL list has
no duplicate pairs, exactly that one pair remains. -/
theorem c10_amended_exactly_min_pair_remains (bg : BloodGroup)
    (h0 : Int × Pair) (t0 : List (Int × Pair))
    (hA : bg.normal.any (phaseAssertViolated bg false) = false)
    (hE : weightedEligible bg = h0 :: t0) (ht : t0 ≠ [])
    (hW : ((h0 :: t0).map (fun x => x.1)).dedup.length ≠ 1)
    (hND : bg.normal.Pairwise (fun p q => pairEq p q = false)) :
    ∃ bg2, low_weight_hom bg true = .ok bg2 ∧
      bg2.normal = [(pyMinD h0 t0).2] := by
  obtain ⟨bg2, hok, hn⟩ := lwh_result bg h0 t0 hA hE ht hW
  refine ⟨bg2, hok, ?_⟩
  rw [hn]
  refine filter_pairEq_singleton ?_ hND
  have hmem : pyMinD h0 t0 ∈ h0 :: t0 := pyMinD_mem _ _
  rw [← hE] at hmem
  exact weightedEligible_mem hmem

/-- Claim C10 (amended) witness: on `bgC7` (duplicate-free) exactly the
weight-2 pair remains. -/
theorem c10_amended_witness :
    ∃ bg2, low_weight_hom bgC7 true = .ok bg2 ∧
      bg2.normal = [(pyMinD (3, p7AB) [(10, p7CD), (2, p7RE)]).2] :=
  c10_amended_exactly_min_pair_remains bgC7 (3, p7AB) [(10, p7CD), (2, p7RE)]
    (by decide) (by decide) (by decide) (by decide) (by decide)

/-- Claim C7 counterexample: among two reference-free phase-eligible pairs of
summed weights 3 and 10 and one reference-containing phase-eligible pair of
summed weight 2, `low_weight_hom` keeps only the reference pair, removing the
minimum-weight reference-free pair the claim says is kept. -/
theorem c7_counterexample_ref_pair_competes :
    p7AB.containsReference = false ∧ p7CD.containsReference = false ∧
    possibleToUsePhase bgC7 p7AB = true ∧
    possibleToUsePhase bgC7 p7CD = true ∧
    a7A.weight_geno + a7B.weight_geno = 3 ∧
    a7C.weight_geno + a7D.weight_geno = 10 ∧
    ((low_weight_hom bgC7 true).toOption.map (fun b => memP p7AB b.normal))
      = some false := by
  decide

/-- Claim C8 counterexample: a reference allele whose (absent,
non-exception) defining variant ends in `"."` is skipped by
`no_defining_variant`, so the pair survives although the claim requires its
removal. -/
theorem c8_counterexample_dot_guard :
    a8R.reference = true ∧
    "1:100_A_." ∈ a8R.defining_variants ∧
    dGet bgC8.variant_pool "1:100_A_." = none ∧
    "1:100_A_." ≠ "9:133257521_T_TC" ∧ "1:100_A_." ≠ "136132908_T_TC" ∧
    no_defining_variant bgC8 true = bgC8 := by
  decide

/-- Claim C10 counterexample: with the minimum-weight pair listed twice,
`low_weight_hom` performs a removal (the weight-5 pair is gone) yet two
NORMAL pairs remain, not exactly one. -/
theorem c10_counterexample_duplicate_best :
    ((low_weight_hom bgC10 true).toOption.map
        (fun b => (b.normal.length, memP pT2 b.normal))) = some (2, false) := by
  decide

lemma exBind_ok {α β : Type} (a : α) (f : α → Except String β) :
    (Except.ok a >>= f) = f a := rfl

lemma exBind_err {α β : Type} (e : String) (f : α → Except String β) :
    ((Except.error e : Except String α) >>= f) = Except.error e := rfl

lemma poolsEq_refl (a : BloodGroup) : poolsEq a a := ⟨rfl, rfl, rfl, rfl⟩

lemma poolsEq_trans {a b c : BloodGroup} (h1 : poolsEq a b)
    (h2 : poolsEq b c) : poolsEq a c :=
  ⟨h2.1.trans h1.1, h2.2.1.trans h1.2.1, h2.2.2.1.trans h1.2.2.1,
    h2.2.2.2.trans h1.2.2.2⟩

lemma shrinks_refl (a : BloodGroup) : Shrinks a a :=
  ⟨List.Sublist.refl _, List.Sublist.refl _, List.Sublist.refl _,
    poolsEq_refl a, fun e he => Or.inl he, fun e he => Or.inl he⟩

lemma shrinks_trans {a b c : BloodGroup} (h1 : Shrinks a b)
    (h2 : Shrinks b c) : Shrinks a c := by
  obtain ⟨n1, c1, f1, p1, lp1, la1⟩ := h1
  obtain ⟨n2, c2, f2, p2, lp2, la2⟩ := h2
  refine ⟨n2.trans n1, c2.trans c1, f2.trans f1, poolsEq_trans p1 p2, ?_, ?_⟩
  · intro e he
    rcases lp2 e he with h | h
    · exact lp1 e h
    · refine Or.inr ?_
      intro p hp
      rcases h p hp with hn | hc
      · exact Or.inl (n1.subset hn)
      · exact Or.inr (c1.subset hc)
  · intro e he
    rcases la2 e he with h | h
    · exact la1 e h
    · exact Or.inr (fun x hx => f1.subset (h x hx))

lemma shrinks_removePairsN (bg : BloodGroup) (tr : List Pair) (name : String)
    (h : ∀ p ∈ tr, p ∈ bg.normal) : Shrinks bg (removePairsN bg tr name) := by
  refine ⟨List.filter_sublist _, List.Sublist.refl _, List.Sublist.refl _,
    poolsEq_refl bg, ?_, fun e he => Or.inl he⟩
  intro e he
  rcases List.mem_append.mp he with h1 | h2
  · exact Or.inl h1
  · simp only [List.mem_singleton] at h2
    subst h2
    exact Or.inr (fun p hp => Or.inl (h p hp))

lemma shrinks_removePairsCO (bg : BloodGroup) (tr : List Pair) (name : String)
    (h : ∀ p ∈ tr, p ∈ coL bg) : Shrinks bg (removePairsCO bg tr name) := by
  refine ⟨List.Sublist.refl _, ?_, List.Sublist.refl _, poolsEq_refl bg,
    ?_, fun e he => Or.inl he⟩
  · show List.Sublist
      ((bg.co.map (fun l => l.filter (fun p => !memP p tr))).getD []) (coL bg)
    unfold coL
    cases bg.co with
    | none => exact List.Sublist.refl _
    | some l => exact List.filter_sublist _
  · intro e he
    rcases List.mem_append.mp he with h1 | h2
    · exact Or.inl h1
    · simp only [List.mem_singleton] at h2
      subst h2
      exact Or.inr (fun p hp => Or.inr (h p hp))

lemma shrinks_removeAllelesF (bg : BloodGroup) (tr : List Allele) (name : String)
    (h : ∀ x ∈ tr, x ∈ bg.filt) : Shrinks bg (removeAllelesF bg tr name) := by
  refine ⟨List.Sublist.refl _, List.Sublist.refl _, List.filter_sublist _,
    poolsEq_refl bg, fun e he => Or.inl he, ?_⟩
  intro e he
  rcases List.mem_append.mp he with h1 | h2
  · exact Or.inl h1
  · simp only [List.mem_singleton] at h2
    subst h2
    exact Or.inr h

lemma shrinks_stepN (bg : BloodGroup) (cond : BloodGroup → Pair → Bool)
    (name : String) : Shrinks bg (stepN bg cond name) := by
  show Shrinks bg (if (bg.normal.filter (cond bg)).isEmpty then bg
    else removePairsN bg (bg.normal.filter (cond bg)) name)
  by_cases hie : (bg.normal.filter (cond bg)).isEmpty = true
  · rw [if_pos hie]
    exact shrinks_refl bg
  · rw [if_neg hie]
    exact shrinks_removePairsN bg _ name (fun p hp => (List.mem_filter.mp hp).1)

lemma shrinks_stepCO (bg : BloodGroup)
    (cond : BloodGroup → List Pair → Pair → Bool) (name : String) :
    Shrinks bg (stepCO bg cond name) := by
  show Shrinks bg (if proceedCO bg then
    (if ((bg.co.getD []).filter (cond bg (bg.co.getD []))).isEmpty then bg
     else removePairsCO bg ((bg.co.getD []).filter (cond bg (bg.co.getD []))) name)
    else bg)
  by_cases hp : proceedCO bg = true
  · rw [if_pos hp]
    by_cases hie : ((bg.co.getD []).filter (cond bg (bg.co.getD []))).isEmpty = true
    · rw [if_pos hie]
      exact shrinks_refl bg
    · rw [if_neg hie]
      exact shrinks_removePairsCO bg _ name
        (fun p hp2 => (List.mem_filter.mp hp2).1)
  · rw [if_neg hp]
    exact shrinks_refl bg

lemma shrinks_remove_unphased (bg : BloodGroup) (ph : Bool) :
    Shrinks bg (remove_unphased bg ph) := by
  cases ph with
  | false => exact shrinks_refl bg
  | true =>
    show Shrinks bg (if (bg.filt.filter (unphasedCond bg)).isEmpty then bg
      else removeAllelesF bg (bg.filt.filter (unphasedCond bg)) "remove_unphased")
    by_cases hie : (bg.filt.filter (unphasedCond bg)).isEmpty = true
    · rw [if_pos hie]
      exact shrinks_refl bg
    · rw [if_neg hie]
      exact shrinks_removeAllelesF bg _ _ (fun x hx => (List.mem_filter.mp hx).1)

lemma shrinks_f2 (bg : BloodGroup) (ph : Bool) :
    Shrinks bg (filter_if_all_HET_vars_on_same_side_and_phased bg ph) := by
  cases ph with
  | false => exact shrinks_refl bg
  | true =>
    show Shrinks bg (stepCO (stepN bg (fun b => cond2 b.variant_pool b.variant_pool_phase) "filter_if_all_HET_vars_on_same_side_and_phased") (fun b _ => cond2 b.variant_pool b.variant_pool_phase) "filter_if_all_HET_vars_on_same_side_and_phased")
    exact shrinks_trans (shrinks_stepN bg _ _) (shrinks_stepCO _ _ _)

lemma shrinks_f3 (bg : BloodGroup) (ph : Bool) :
    Shrinks bg (filter_on_in_relationship_if_HET_vars_on_dif_side_and_phased bg ph) := by
  cases ph with
  | false => exact shrinks_refl bg
  | true =>
    show Shrinks bg (stepCO (stepN bg (fun b => cond3 b b.normal) "filter_on_in_relationship_if_HET_vars_on_dif_side_and_phased") (cond3) "filter_on_in_relationship_if_HET_vars_on_dif_side_and_phased")
    exact shrinks_trans (shrinks_stepN bg _ _) (shrinks_stepCO _ _ _)

lemma shrinks_f4 (bg : BloodGroup) (ph : Bool) :
    Shrinks bg (filter_on_in_relationship_when_HOM_cant_be_on_one_side bg ph) := by
  cases ph with
  | false => exact shrinks_refl bg
  | true =>
    show Shrinks bg (stepCO (stepN bg (fun b => cond4 b b.normal) "filter_on_in_relationship_when_HOM_cant_be_on_one_side") (cond4) "filter_on_in_relationship_when_HOM_cant_be_on_one_side")
    exact shrinks_trans (shrinks_stepN bg _ _) (shrinks_stepCO _ _ _)

lemma shrinks_f5 (bg : BloodGroup) (ph : Bool) :
    Shrinks bg (filter_on_in_relationship_if_all_HOM_and_phased bg ph) := by
  cases ph with
  | false => exact shrinks_refl bg
  | true =>
    have hmid : Shrinks bg (if bg.normal.length < 2 then bg
        else stepN bg (fun b => cond5 b b.normal)
          "filter_on_in_relationship_if_all_HOM_and_phased") := by
      by_cases hl : bg.normal.length < 2
      · rw [if_pos hl]
        exact shrinks_refl bg
      · rw [if_neg hl]
        exact shrinks_stepN bg _ _
    refine shrinks_trans hmid ?_
    by_cases hl2 : ((if bg.normal.length < 2 then bg
        else stepN bg (fun b => cond5 b b.normal)
          "filter_on_in_relationship_if_all_HOM_and_phased").co.getD []).length < 2
    · show Shrinks _ (if _ < 2 then _ else _)
      rw [if_pos hl2]
      exact shrinks_refl _
    · show Shrinks _ (if _ < 2 then _ else _)
      rw [if_neg hl2]
      exact shrinks_stepCO _ _ _

lemma shrinks_f6 (bg : BloodGroup) (refA : String → Allele)
    (h : ¬ fires6 bg) : Shrinks bg (filter_pairs_by_phase bg true refA) := by
  by_cases hA : bg.normal.filter
      (cond6 bg.variant_pool bg.variant_pool_phase bg.variant_pool_phase_set)
      = []
  · have heq : filter_pairs_by_phase bg true refA = bg := by
      show (if (bg.normal.filter (cond6 bg.variant_pool bg.variant_pool_phase
          bg.variant_pool_phase_set)).isEmpty
        then { bg with normal := bg.normal ++
          (if bg.normal.length == (bg.normal.filter (cond6 bg.variant_pool
              bg.variant_pool_phase bg.variant_pool_phase_set)).length
           then (bg.normal.filter (cond6 bg.variant_pool bg.variant_pool_phase
              bg.variant_pool_phase_set)).flatMap (fun p =>
                [⟨refA bg.type, p.allele1⟩, ⟨refA bg.type, p.allele2⟩])
           else []) }
        else removePairsN { bg with normal := bg.normal ++ _ }
          (bg.normal.filter (cond6 bg.variant_pool bg.variant_pool_phase
            bg.variant_pool_phase_set)) "filter_pairs_by_phase") = bg
      rw [hA]
      simp
    rw [heq]
    exact shrinks_refl bg
  · have hlen : (bg.normal.filter (cond6 bg.variant_pool bg.variant_pool_phase
        bg.variant_pool_phase_set)).length ≠ bg.normal.length :=
      fun he => h ⟨hA, he⟩
    have hbeq : (bg.normal.length == (bg.normal.filter (cond6 bg.variant_pool
        bg.variant_pool_phase bg.variant_pool_phase_set)).length) = false :=
      beq_eq_false_iff_ne.mpr (fun he => hlen he.symm)
    have hie : (bg.normal.filter (cond6 bg.variant_pool bg.variant_pool_phase
        bg.variant_pool_phase_set)).isEmpty = false := by
      cases hl : bg.normal.filter (cond6 bg.variant_pool bg.variant_pool_phase
          bg.variant_pool_phase_set) with
      | nil => exact absurd hl hA
      | cons x xs => rfl
    have heq : filter_pairs_by_phase bg true refA
        = removePairsN bg (bg.normal.filter (cond6 bg.variant_pool
            bg.variant_pool_phase bg.variant_pool_phase_set))
          "filter_pairs_by_phase" := by
      show (if (bg.normal.filter (cond6 bg.variant_pool bg.variant_pool_phase
          bg.variant_pool_phase_set)).isEmpty
        then { bg with normal := bg.normal ++
          (if bg.normal.length == (bg.normal.filter (cond6 bg.variant_pool
              bg.variant_pool_phase bg.variant_pool_phase_set)).length
           then (bg.normal.filter (cond6 bg.variant_pool bg.variant_pool_phase
              bg.variant_pool_phase_set)).flatMap (fun p =>
                [⟨refA bg.type, p.allele1⟩, ⟨refA bg.type, p.allele2⟩])
           else []) }
        else removePairsN { bg with normal := bg.normal ++
          (if bg.normal.length == (bg.normal.filter (cond6 bg.variant_pool
              bg.variant_pool_phase bg.variant_pool_phase_set)).length
           then (bg.normal.filter (cond6 bg.variant_pool bg.variant_pool_phase
              bg.variant_pool_phase_set)).flatMap (fun p =>
                [⟨refA bg.type, p.allele1⟩, ⟨refA bg.type, p.allele2⟩])
           else []) }
          (bg.normal.filter (cond6 bg.variant_pool bg.variant_pool_phase
            bg.variant_pool_phase_set)) "filter_pairs_by_phase") = _
      rw [hbeq, hie]
      simp
    rw [heq]
    exact shrinks_removePairsN bg _ _ (fun p hp => (List.mem_filter.mp hp).1)

lemma shrinks_impossibleCoreN (bg bg2 : BloodGroup)
    (h : impossibleCore bg bg.normal false = .ok bg2) : Shrinks bg bg2 := by
  unfold impossibleCore at h
  cases hb : buckets7 bg bg.normal with
  | error e => rw [hb, exBind_err] at h; exact Except.noConfusion h
  | ok bk =>
    rw [hb, exBind_ok] at h
    by_cases hlen : ((tr7 bg.normal bk).length == bg.normal.length) = true
    · rw [if_pos hlen] at h
      exact Except.noConfusion h
    · rw [if_neg hlen] at h
      simp only [Bool.false_eq_true, if_false] at h
      by_cases hie : (tr7 bg.normal bk).isEmpty = true
      · rw [if_pos hie] at h
        by_cases hre : bg.normal.isEmpty = true
        · rw [if_pos hre] at h
          exact Except.noConfusion h
        · rw [if_neg hre] at h
          cases Except.ok.inj h
          exact shrinks_refl bg
      · rw [if_neg hie] at h
        by_cases hre : (removePairsN bg (tr7 bg.normal bk)
            "filter_impossible_alleles_phased").normal.isEmpty = true
        · rw [if_pos hre] at h
          exact Except.noConfusion h
        · rw [if_neg hre] at h
          cases Except.ok.inj h
          exact shrinks_removePairsN bg _ _
            (fun p hp => (List.mem_filter.mp hp).1)

lemma shrinks_impossibleCoreCO (bg bg2 : BloodGroup)
    (h : impossibleCore bg (bg.co.getD []) true = .ok bg2) : Shrinks bg bg2 := by
  unfold impossibleCore at h
  cases hb : buckets7 bg (bg.co.getD []) with
  | error e => rw [hb, exBind_err] at h; exact Except.noConfusion h
  | ok bk =>
    rw [hb, exBind_ok] at h
    by_cases hlen : ((tr7 (bg.co.getD []) bk).length
        == (bg.co.getD []).length) = true
    · rw [if_pos hlen] at h
      exact Except.noConfusion h
    · rw [if_neg hlen] at h
      simp only [if_true] at h
      by_cases hie : (tr7 (bg.co.getD []) bk).isEmpty = true
      · rw [if_pos hie] at h
        by_cases hre : (bg.co.getD []).isEmpty = true
        · rw [if_pos hre] at h
          exact Except.noConfusion h
        · rw [if_neg hre] at h
          cases Except.ok.inj h
          exact shrinks_refl bg
      · rw [if_neg hie] at h
        by_cases hre : ((removePairsCO bg (tr7 (bg.co.getD []) bk)
            "filter_impossible_alleles_phased").co.getD []).isEmpty = true
        · rw [if_pos hre] at h
          exact Except.noConfusion h
        · rw [if_neg hre] at h
          cases Except.ok.inj h
          exact shrinks_removePairsCO bg _ _
            (fun p hp => (List.mem_filter.mp hp).1)

lemma shrinks_f7 (bg bg2 : BloodGroup)
    (h : impossible_alleles_phased bg true = .ok bg2) : Shrinks bg bg2 := by
  unfold impossible_alleles_phased at h
  rw [if_pos rfl] at h
  by_cases hlen : bg.normal.length ≤ 1
  · rw [if_pos hlen] at h
    cases Except.ok.inj h
    exact shrinks_refl bg
  · rw [if_neg hlen] at h
    cases hc : impossibleCore bg bg.normal false with
    | error e => rw [hc, exBind_err] at h; exact Except.noConfusion h
    | ok bg1 =>
      rw [hc, exBind_ok] at h
      have s1 := shrinks_impossibleCoreN bg bg1 hc
      by_cases hp : proceedCO bg1 = true
      · rw [if_pos hp] at h
        by_cases hl2 : (bg1.co.getD []).length ≤ 1
        · rw [if_pos hl2] at h
          cases Except.ok.inj h
          exact s1
        · rw [if_neg hl2] at h
          exact shrinks_trans s1 (shrinks_impossibleCoreCO bg1 bg2 h)
      · rw [if_neg hp] at h
        cases Except.ok.inj h
        exact s1

lemma shrinks_f8 (bg bg2 : BloodGroup)
    (h : rm_ref_if_2x_HET_phased bg true = .ok bg2) : Shrinks bg bg2 := by
  unfold rm_ref_if_2x_HET_phased at h
  rw [if_pos rfl] at h
  by_cases hA : bg.normal.any (phaseAssertViolated bg true) = true
  · rw [if_pos hA] at h
    exact Except.noConfusion h
  · rw [if_neg hA] at h
    cases Except.ok.inj h
    by_cases hc : (!(bg.normal.filter Pair.containsReference).isEmpty &&
        bg.normal.any (fun p => !p.containsReference && possibleToUsePhase bg p))
        = true
    · rw [if_pos hc]
      exact shrinks_removePairsN bg _ _ (fun p hp => (List.mem_filter.mp hp).1)
    · rw [if_neg hc]
      exact shrinks_refl bg

lemma shrinks_f9 (bg bg2 : BloodGroup)
    (h : low_weight_hom bg true = .ok bg2) : Shrinks bg bg2 := by
  unfold low_weight_hom at h
  rw [if_pos rfl] at h
  by_cases hA : bg.normal.any (phaseAssertViolated bg false) = true
  · rw [if_pos hA] at h
    exact Except.noConfusion h
  · rw [if_neg hA] at h
    cases hE : weightedEligible bg with
    | nil =>
      simp only [hE] at h
      cases Except.ok.inj h
      exact shrinks_refl bg
    | cons h0 t =>
      cases t with
      | nil =>
        simp only [hE] at h
        cases Except.ok.inj h
        exact shrinks_refl bg
      | cons h1 ts =>
        simp only [hE] at h
        by_cases hd : ((((h0 :: h1 :: ts).map (fun x => x.1)).dedup.length == 1))
            = true
        · rw [if_pos hd] at h
          cases Except.ok.inj h
          exact shrinks_refl bg
        · rw [if_neg hd] at h
          cases Except.ok.inj h
          show Shrinks bg (if (bg.normal.filter
              (fun p => !pairEq p (pyMinD h0 (h1 :: ts)).2)).isEmpty then bg
            else removePairsN bg (bg.normal.filter
              (fun p => !pairEq p (pyMinD h0 (h1 :: ts)).2)) "low_weight_hom")
          by_cases hie : (bg.normal.filter
              (fun p => !pairEq p (pyMinD h0 (h1 :: ts)).2)).isEmpty = true
          · rw [if_pos hie]
            exact shrinks_refl bg
          · rw [if_neg hie]
            exact shrinks_removePairsN bg _ _
              (fun p hp => (List.mem_filter.mp hp).1)

lemma shrinks_simpleIte (bg : BloodGroup) (c : Pair → Bool) (name : String) :
    Shrinks bg (if (bg.normal.filter c).isEmpty then bg
      else removePairsN bg (bg.normal.filter c) name) := by
  by_cases hie : (bg.normal.filter c).isEmpty = true
  · rw [if_pos hie]
    exact shrinks_refl bg
  · rw [if_neg hie]
    exact shrinks_removePairsN bg _ name (fun p hp => (List.mem_filter.mp hp).1)

lemma shrinks_f10 (bg : BloodGroup) (ph : Bool) :
    Shrinks bg (no_defining_variant bg ph) := by
  cases ph with
  | false => exact shrinks_refl bg
  | true => exact shrinks_simpleIte bg _ "no_defining_variant"

lemma shrinks_f11 (bg : BloodGroup) (ph : Bool) :
    Shrinks bg (ref_not_phased bg ph) := by
  cases ph with
  | false => exact shrinks_refl bg
  | true => exact shrinks_simpleIte bg _ "ref_not_phased"

lemma shrinks_f12 (bg : BloodGroup) (ph : Bool) :
    Shrinks bg (cant_be_hom_ref_due_to_HET_SNP bg ph) := by
  cases ph with
  | false => exact shrinks_refl bg
  | true => exact shrinks_simpleIte bg _ "cant_be_hom_ref_due_to_HET_SNP"

lemma shrinks_stage5 (bg : BloodGroup) : Shrinks bg (stage5 bg) :=
  shrinks_trans (shrinks_trans (shrinks_trans (shrinks_trans
    (shrinks_remove_unphased bg true)
    (shrinks_f2 _ true)) (shrinks_f3 _ true)) (shrinks_f4 _ true))
    (shrinks_f5 _ true)

lemma pipeline_post6_shrinks (refA : String → Allele) (bg final : BloodGroup)
    (h1 : runPipeline refA bg = .ok final) :
    Shrinks (filter_pairs_by_phase (stage5 bg) true refA) final := by
  unfold runPipeline at h1
  cases h7 : impossible_alleles_phased
      (filter_pairs_by_phase (stage5 bg) true refA) true with
  | error e => rw [h7, exBind_err] at h1; exact Except.noConfusion h1
  | ok b7 =>
    rw [h7, exBind_ok] at h1
    cases h8 : rm_ref_if_2x_HET_phased b7 true with
    | error e => rw [h8, exBind_err] at h1; exact Except.noConfusion h1
    | ok b8 =>
      rw [h8, exBind_ok] at h1
      cases h9 : low_weight_hom b8 true with
      | error e => rw [h9, exBind_err] at h1; exact Except.noConfusion h1
      | ok b9 =>
        rw [h9, exBind_ok] at h1
        cases Except.ok.inj h1
        exact shrinks_trans (shrinks_trans (shrinks_trans (shrinks_trans
          (shrinks_f7 _ _ h7) (shrinks_f8 _ _ h8)) (shrinks_f9 _ _ h9))
          (shrinks_f10 _ true))
          (shrinks_trans (shrinks_f11 _ true) (shrinks_f12 _ true))

lemma pipeline_shrinks (refA : String → Allele) (bg final : BloodGroup)
    (h1 : runPipeline refA bg = .ok final)
    (h2 : ¬ fires6 (stage5 bg)) : Shrinks bg final :=
  shrinks_trans (shrinks_trans (shrinks_stage5 bg)
    (shrinks_f6 (stage5 bg) refA h2)) (pipeline_post6_shrinks refA bg final h1)

/-- Claim C3 (amended): provided filter 6's reference fallback does not fire
(and the pipeline succeeds, starting from an empty ledger), the surviving
NORMAL/CO pair counts and FILT allele count after the full pipeline are at
most the pre-pipeline counts, and every pair/allele recorded in the removal
ledger is an element of the pre-pipeline candidate set.  (When the fallback
fires, the NORMAL count can grow.) -/
theorem c3_amended_monotone_without_fallback (refA : String → Allele)
    (bg final : BloodGroup)
    (h1 : runPipeline refA bg = .ok final)
    (h2 : ¬ fires6 (stage5 bg))
    (hLP : bg.ledgerP = []) (hLA : bg.ledgerA = []) :
    final.normal.length ≤ bg.normal.length ∧
    (coL final).length ≤ (coL bg).length ∧
    final.filt.length ≤ bg.filt.length ∧
    (∀ e ∈ final.ledgerP, ∀ p ∈ e.2, p ∈ bg.normal ∨ p ∈ coL bg) ∧
    (∀ e ∈ final.ledgerA, ∀ x ∈ e.2, x ∈ bg.filt) := by
  obtain ⟨hn, hco, hf, _, hLPp, hLAp⟩ := pipeline_shrinks refA bg final h1 h2
  refine ⟨hn.length_le, hco.length_le, hf.length_le, ?_, ?_⟩
  · intro e he p hp
    rcases hLPp e he with h | h
    · rw [hLP] at h
      exact absurd h (List.not_mem_nil e)
    · exact h p hp
  · intro e he x hx
    rcases hLAp e he with h | h
    · rw [hLA] at h
      exact absurd h (List.not_mem_nil e)
    · exact h x hx

/-- Claim C3 (amended) witness: the scenario-2 candidate set passes the
pipeline untouched. -/
theorem c3_amended_witness :
    runPipeline refW bgS2 = .ok bgS2 ∧ ¬ fires6 (stage5 bgS2) ∧
    bgS2.normal.length ≤ bgS2.normal.length :=
  ⟨rfl, by decide,
    (c3_amended_monotone_without_fallback refW bgS2 bgS2 rfl
      (by decide) rfl rfl).1⟩

lemma cond6_false_of_ref {pool : List (String × Zygosity)}
    {phd psd : List (String × String)} {p : Pair}
    (h : p.allele1.reference = true) : cond6 pool phd psd p = false := by
  simp [cond6, Pair.containsReference, h]

lemma poolsEq_f6 (bg : BloodGroup) (refA : String → Allele) :
    poolsEq bg (filter_pairs_by_phase bg true refA) := by
  unfold filter_pairs_by_phase
  rw [if_pos rfl]
  by_cases hie : (tr6 bg).isEmpty = true
  · rw [if_pos hie]
    exact ⟨rfl, rfl, rfl, rfl⟩
  · rw [if_neg hie]
    exact ⟨rfl, rfl, rfl, rfl⟩

lemma adds6_fst {bg : BloodGroup} {refA : String → Allele} {p : Pair}
    (h : p ∈ adds6 bg refA) : p.allele1 = refA bg.type := by
  unfold adds6 at h
  by_cases hb : (bg.normal.length == (tr6 bg).length) = true
  · rw [if_pos hb] at h
    rcases List.mem_flatMap.mp h with ⟨q, _, hq⟩
    simp only [List.mem_cons, List.mem_singleton, List.not_mem_nil,
      or_false] at hq
    rcases hq with h1 | h1 <;> rw [h1]
  · rw [if_neg hb] at h
    cases h

lemma f6_mem_normal {bg : BloodGroup} {refA : String → Allele} {p : Pair}
    (hp : p ∈ (filter_pairs_by_phase bg true refA).normal) :
    (p ∈ bg.normal ∧ cond6 bg.variant_pool bg.variant_pool_phase
        bg.variant_pool_phase_set p = false) ∨
    p.allele1 = refA bg.type := by
  unfold filter_pairs_by_phase at hp
  rw [if_pos rfl] at hp
  by_cases hie : (tr6 bg).isEmpty = true
  · rw [if_pos hie] at hp
    rcases List.mem_append.mp hp with hn | ha
    · left
      refine ⟨hn, ?_⟩
      have hnil : tr6 bg = [] := List.isEmpty_iff.mp hie
      cases hc : cond6 bg.variant_pool bg.variant_pool_phase
          bg.variant_pool_phase_set p with
      | false => rfl
      | true =>
        have hpt : p ∈ tr6 bg := List.mem_filter.mpr ⟨hn, hc⟩
        rw [hnil] at hpt
        exact absurd hpt (List.not_mem_nil p)
    · exact Or.inr (adds6_fst ha)
  · rw [if_neg hie] at hp
    simp only [removePairsN] at hp
    rcases List.mem_filter.mp hp with ⟨hpa, hkeep⟩
    rcases List.mem_append.mp hpa with hn | ha
    · left
      refine ⟨hn, ?_⟩
      cases hc : cond6 bg.variant_pool bg.variant_pool_phase
          bg.variant_pool_phase_set p with
      | false => rfl
      | true =>
        have hpt : p ∈ tr6 bg := List.mem_filter.mpr ⟨hn, hc⟩
        rw [memP_of_mem hpt] at hkeep
        exact Bool.noConfusion hkeep
    · exact Or.inr (adds6_fst ha)

/-- Claim C4 (amended): the pipeline is not idempotent in general, but
re-running it on its own output never adds pairs: when the reference lookup
returns reference-flagged alleles, filter 6's fallback cannot fire on the
second run, and the second run's surviving NORMAL/CO pairs and FILT alleles
form sublists of the first run's output. -/
theorem c4_amended_second_run_shrinks (refA : String → Allele)
    (bg O O2 : BloodGroup)
    (hRef : ∀ t, (refA t).reference = true)
    (h1 : runPipeline refA bg = .ok O)
    (h2 : runPipeline refA O = .ok O2) :
    List.Sublist O2.normal O.normal ∧
    List.Sublist (coL O2) (coL O) ∧
    List.Sublist O2.filt O.filt := by
  have hpe2 : poolsEq (stage5 bg)
      (filter_pairs_by_phase (stage5 bg) true refA) := poolsEq_f6 _ _
  have hpe3 : poolsEq (filter_pairs_by_phase (stage5 bg) true refA) O :=
    (pipeline_post6_shrinks refA bg O h1).2.2.2.1
  have hpe4 : poolsEq O (stage5 O) := (shrinks_stage5 O).2.2.2.1
  have e1 : (stage5 O).variant_pool = (stage5 bg).variant_pool :=
    (hpe4.2.1).trans ((hpe3.2.1).trans hpe2.2.1)
  have e2 : (stage5 O).variant_pool_phase = (stage5 bg).variant_pool_phase :=
    (hpe4.2.2.1).trans ((hpe3.2.2.1).trans hpe2.2.2.1)
  have e3 : (stage5 O).variant_pool_phase_set
      = (stage5 bg).variant_pool_phase_set :=
    (hpe4.2.2.2).trans ((hpe3.2.2.2).trans hpe2.2.2.2)
  have hmem : ∀ p ∈ O.normal,
      cond6 (stage5 O).variant_pool (stage5 O).variant_pool_phase
        (stage5 O).variant_pool_phase_set p = false := by
    intro p hp
    have hp6 : p ∈ (filter_pairs_by_phase (stage5 bg) true refA).normal :=
      (pipeline_post6_shrinks refA bg O h1).1.subset hp
    rw [e1, e2, e3]
    rcases f6_mem_normal hp6 with ⟨_, hc⟩ | hfst
    · exact hc
    · refine cond6_false_of_ref ?_
      rw [hfst]
      exact hRef _
  have hnf : ¬ fires6 (stage5 O) := by
    intro hfire
    obtain ⟨hne, _⟩ := hfire
    cases hl : (stage5 O).normal.filter
        (cond6 (stage5 O).variant_pool (stage5 O).variant_pool_phase
          (stage5 O).variant_pool_phase_set) with
    | nil => exact hne hl
    | cons q qs =>
      have hq : q ∈ (stage5 O).normal.filter
          (cond6 (stage5 O).variant_pool (stage5 O).variant_pool_phase
            (stage5 O).variant_pool_phase_set) := by
        rw [hl]
        exact List.mem_cons_self _ _
      rcases List.mem_filter.mp hq with ⟨hqn, hqc⟩
      have hqO : q ∈ O.normal := (shrinks_stage5 O).1.subset hqn
      rw [hmem q hqO] at hqc
      exact Bool.noConfusion hqc
  obtain ⟨hn, hco, hfi, _, _, _⟩ := pipeline_shrinks refA O O2 h2 hnf
  exact ⟨hn, hco, hfi⟩

/-- Claim C4 (amended) witness: the scenario-2 set passes both runs
unchanged, and the second run's output is a sublist of the first's. -/
theorem c4_amended_witness :
    runPipeline refW bgS2 = .ok bgS2 ∧
    List.Sublist bgS2.normal bgS2.normal :=
  ⟨rfl, (c4_amended_second_run_shrinks refW bgS2 bgS2 bgS2
    (fun _ => rfl) rfl rfl).1⟩

end RBC

